import Mathlib

/-!
Verification of the reference-integrity engine in `src/App/PropertyLinks.cpp`.

The development shallowly embeds the link-property operations of the source
file.  Document objects are modelled as identifiers, the external
collaborators (the document host's `getSubObject`/`getObject`, the geometry
engine's `resolveElement` family, the XML reader and writer) are modelled as
abstract functions supplied through world records, exactly as the spec
treats them (interfaces only).  Stateful C++ code is translated into pure
functions returning the new state, together with an event trace where the
order of hook and backlink calls matters.
-/

namespace PropertyLinks

/-- A document object, identified by a stable id (`DocumentObject*`). -/
structure Obj where
  id : Nat
deriving DecidableEq, Repr

/-- The scope flag of a link property (`App::LinkScope`). -/
inductive LinkScope where
  | Global
  | Child
  | Hidden
deriving DecidableEq, Repr

/-! ## C1: `PropertyLinkBase::isSame` (lines 98-121)

The observable data of a property that `isSame` consults: its identity
(the `this` pointer), whether it is derived from `PropertyLinkBase`, its
scope, and the outcome of `getLinks(ret, true, &subs, newStyle)` for the
two `newStyle` flavours (`all = true` in both calls, so hidden scope does
not filter anything). -/
structure PropView where
  propId : Nat
  /-- `isDerivedFrom<PropertyLinkBase>()` for this property. -/
  isLinkProp : Bool
  scope : LinkScope
  /-- objects collected by `getLinks(ret, true, &subs, _)`; the `newStyle`
  flag only affects the subname strings, not the objects. -/
  linkObjs : List Obj
  /-- subnames collected with `newStyle = false` (old style). -/
  subsOld : List String
  /-- subnames collected with `newStyle = true` (new style). -/
  subsNew : List String
deriving DecidableEq, Repr

/-- `PropertyLinkBase::isSame` (lines 98-121), translated verbatim: the
identity check, then `other.isDerivedFrom<PropertyLinkBase>() || getScope()
!= other->getScope()` (note: the source has no negation on the
`isDerivedFrom` test), then `getLinks(ret, true, &subs, false)` on `this`
compared against `getLinks(ret2, true, &subs2, true)` on `other`. -/
def isSame (self other : PropView) : Bool :=
  if other.propId = self.propId then
    true
  else if other.isLinkProp || !(decide (self.scope = other.scope)) then
    false
  else
    decide (self.linkObjs = other.linkObjs) && decide (self.subsOld = other.subsNew)

/-- Two distinct single-target link properties holding the same target,
with equal scope and no subnames. -/
def sameContentP : PropView :=
  { propId := 1, isLinkProp := true, scope := .Global
    linkObjs := [⟨7⟩], subsOld := [], subsNew := [] }

/-- Same content as `sameContentP` but a different property object. -/
def sameContentQ : PropView :=
  { propId := 2, isLinkProp := true, scope := .Global
    linkObjs := [⟨7⟩], subsOld := [], subsNew := [] }

end PropertyLinks

namespace PropertyLinks

/-! ## C2/C3: value-replacing mutations and backlink maintenance

`PropertyLink::setValue` (lines 708-734), `PropertyLinkSubList::setValues`
(move overload, lines 2315-2363) and `PropertyLinkList::setValues` (lines
971-1009) are embedded as trace-producing functions: each observable call
(`aboutToSetValue`, `_removeBackLink`, `_addBackLink`, the installation of
the new value, `hasSetValue`) becomes one event, in the order the source
performs them.  A thrown `Base::ValueError` is `none`. -/

/-- The owner (`getContainer()` as a `DocumentObject`): its identity, its
`ObjectStatus::Destroy` flag, and its document. -/
structure Owner where
  obj : Obj
  destroy : Bool
  doc : Nat
deriving DecidableEq, Repr

/-- One observable step of a value-replacing mutation. -/
inductive Ev where
  | aboutToSetValue
  | removeBackLink (target : Obj) (owner : Obj)
  | addBackLink (target : Obj) (owner : Obj)
  | install
  | hasSetValue
deriving DecidableEq, Repr

/-- Whether an event is a backlink-set mutation. -/
def Ev.isBacklink : Ev → Bool
  | .removeBackLink _ _ => true
  | .addBackLink _ _ => true
  | _ => false

/-- External facts about document objects (`isAttachedToDocument`,
`getDocument`); these live outside `PropertyLinks.cpp`. -/
structure DocWorld where
  attached : Obj → Bool
  docOf : Obj → Nat

/-- The backlink block of `PropertyLink::setValue` (lines 719-730): guarded
by `scope != Hidden && parent`, then `!parent->testStatus(Destroy)`; one
remove for the current link, one add for the new one. -/
def linkBacklinkEvs (scope : LinkScope) (parent : Option Owner)
    (cur lValue : Option Obj) : List Ev :=
  match parent with
  | none => []
  | some p =>
    if scope = LinkScope.Hidden then []
    else if p.destroy then []
    else
      (match cur with
        | some c => [Ev.removeBackLink c p.obj]
        | none => [])
      ++ (match lValue with
        | some v => [Ev.addBackLink v p.obj]
        | none => [])

/-- `PropertyLink::setValue` (lines 708-734): external-object check, then
`aboutToSetValue`, then the backlink block, then `_pcLink = lValue`
(`install`), then `hasSetValue`. -/
def linkSetValue (w : DocWorld) (allowExternal : Bool) (scope : LinkScope)
    (parent : Option Owner) (cur lValue : Option Obj) : Option (List Ev) :=
  let bad : Bool :=
    match parent, lValue with
    | some p, some v => !allowExternal && !(decide (p.doc = w.docOf v))
    | _, _ => false
  if bad then none
  else
    some ([Ev.aboutToSetValue]
      ++ linkBacklinkEvs scope parent cur lValue
      ++ [Ev.install, Ev.hasSetValue])

/-- `PropertyLinkSubList::verifyObject` (lines 2193-2203) as a predicate:
`true` when it does not throw. -/
def verifyObjectOk (w : DocWorld) (allowExternal : Bool)
    (parent : Option Owner) : Option Obj → Bool
  | none => true
  | some o =>
    w.attached o
      && (allowExternal
        || match parent with
          | none => true
          | some p => decide (p.doc = w.docOf o))

/-- The backlink block of the list-valued `setValues` (lines 2328-2349 and
991-1006): one `_removeBackLink` per non-null entry of the old list and one
`_addBackLink` per non-null entry of the new list, with no deduplication
(the source comments say the document object is trusted to add the
backlink only once). -/
def listBacklinkEvs (scope : LinkScope) (parent : Option Owner)
    (curList lValue : List (Option Obj)) : List Ev :=
  match parent with
  | none => []
  | some p =>
    if !p.destroy && !(decide (scope = LinkScope.Hidden)) then
      curList.filterMap (fun o => o.map (fun c => Ev.removeBackLink c p.obj))
        ++ lValue.filterMap (fun o => o.map (fun v => Ev.addBackLink v p.obj))
    else []

/-- `PropertyLinkSubList::setValues` (move overload, lines 2315-2363):
`verifyObject` on every entry, the size check, then the backlink block,
then `aboutToSetValue`, the installation of `_lValueList`/`_lSubList`
(`install`; the shadow bookkeeping does not emit hook events), then
`hasSetValue`. -/
def subListSetValues (w : DocWorld) (allowExternal : Bool) (scope : LinkScope)
    (parent : Option Owner) (curList : List (Option Obj))
    (lValue : List (Option Obj)) (lSubNames : List String) : Option (List Ev) :=
  if !(lValue.all (verifyObjectOk w allowExternal parent)) then none
  else if lValue.length ≠ lSubNames.length then none
  else
    some (listBacklinkEvs scope parent curList lValue
      ++ [Ev.aboutToSetValue, Ev.install, Ev.hasSetValue])

/-- `PropertyLinkList::setValues` (lines 971-1009): the `{nullptr}`
backward-compatibility clear, per-entry validity checks (null entries
throw here), then the backlink block, then `inherited::setValues`, whose
hooks fire around the installation. -/
def linkListSetValues (w : DocWorld) (allowExternal : Bool) (scope : LinkScope)
    (parent : Option Owner) (curList : List (Option Obj))
    (value : List (Option Obj)) : Option (List Ev) :=
  let install : List (Option Obj) → Option (List Ev) := fun v =>
    if !(v.all fun o =>
        match o with
        | none => false
        | some x =>
          w.attached x
            && (allowExternal
              || match parent with
                | none => true
                | some p => decide (p.doc = w.docOf x))) then none
    else
      some (listBacklinkEvs scope parent curList v
        ++ [Ev.aboutToSetValue, Ev.install, Ev.hasSetValue])
  if value = [none] then install [] else install value

/-- A document world where every object is attached and lives in
document 0; used for concrete instantiations. -/
def oneDocWorld : DocWorld :=
  { attached := fun _ => true, docOf := fun _ => 0 }

/-- A live (not pending-destroy) owner object `0` in document 0. -/
def liveOwner : Owner :=
  { obj := ⟨0⟩, destroy := false, doc := 0 }

/-! ## C10: the process-wide registries

`_LabelMap` and `_ElementRefMap` (lines 62-63) are maps from a key (label
string, resp. geometry feature) to the set of registered properties.  A
map is embedded as an association list with unique keys; properties are
identified by a numeric id.  `unregisterLabelReferences` (lines 137-149)
and `unregisterElementReference` (lines 123-135) run the same loop over
the property's recorded key set, and the destructor (lines 68-72) runs
both. -/

/-- A process-wide registry: key to the member property set. -/
abbrev Registry (κ : Type) := List (κ × List Nat)

/-- One iteration of the unregister loops: look the key up, erase `this`
from the member set, and erase the whole entry when the set became
empty. -/
def unregisterKey {κ : Type} [DecidableEq κ] (p : Nat) (key : κ) :
    Registry κ → Registry κ
  | [] => []
  | (k, s) :: rest =>
    if k = key then
      let s2 := s.filter (fun x => x ≠ p)
      if s2.isEmpty then rest else (k, s2) :: rest
    else (k, s) :: unregisterKey p key rest

/-- The unregister loop over all keys recorded by the property
(`_LabelRefs`, resp. `_ElementRefs`). -/
def unregisterRefs {κ : Type} [DecidableEq κ] (m : Registry κ) (p : Nat)
    (keys : List κ) : Registry κ :=
  keys.foldl (fun acc k => unregisterKey p k acc) m

/-- `PropertyLinkBase::~PropertyLinkBase` (lines 68-72): unregister the
label references, then the element references. -/
def destructorRegistries (labelMap : Registry String) (elemMap : Registry Obj)
    (p : Nat) (labelRefs : List String) (elemRefs : List Obj) :
    Registry String × Registry Obj :=
  (unregisterRefs labelMap p labelRefs, unregisterRefs elemMap p elemRefs)

/-! ## C7/C8: the serialization codec of `PropertyLink` and
`PropertyLinkSub`

Strings are `List Char`; the XML writer/reader pair is external
(`Base::Writer` / `Base::XMLReader`), so encoding is split into the
record the property writes (`Save`, lines 768-772 and 1835-1884) and a
rendering of that record into the byte stream; decoding (`Restore`,
lines 774-808 and 1886-1943) consumes the record the reader hands back.
Modelled from the spec: the XML layer is an exact inverse on records
(§4.7 treats it as an abstract read/write token stream), and
`reader.getName` is the identity because no import name-mapping is
active on a plain load. -/

/-- A C++ string. -/
abbrev CStr := List Char

/-- The dual element-name encoding (`ShadowSub` with its `newName` /
`oldName` members). -/
structure ShadowSub where
  newName : CStr
  oldName : CStr
deriving DecidableEq, Repr

/-- External facts supplied by the owning document
(`Document::getObject`, `DocumentObject::getExportName`,
`isAttachedToDocument`). -/
structure DocHost where
  getObject : CStr → Option Obj
  exportName : Obj → CStr
  attached : Obj → Bool

/-- A warning printed through the console while decoding. -/
inductive Warn where
  | lostLink
  | selfLink
deriving DecidableEq, Repr

/-- `PropertyLink::Save` (lines 768-772): the record is the single
`value` attribute. -/
def linkSave (h : DocHost) (link : Option Obj) : CStr :=
  match link with
  | some o => h.exportName o
  | none => []

/-- `PropertyLink::Restore` (lines 774-808): look the stored name up; a
missing object yields a warning (verbose readers only) and a null value;
a self-link is warned about and nulled; then `setValue(object)`. -/
def linkRestore (h : DocHost) (parent : Obj) (verbose : Bool) (name : CStr) :
    Option Obj × List Warn :=
  if name ≠ [] then
    match h.getObject name with
    | none => (none, if verbose then [Warn.lostLink] else [])
    | some o =>
      if o = parent then (none, if verbose then [Warn.selfLink] else [])
      else (some o, [])
  else (none, [])

/-- One serialized `<Sub/>` element of a `PropertyLinkSub` record: the
`value` attribute plus the optional `shadowed` / `shadow` attributes and
the `mapped` flag. -/
structure SubEntry where
  value : CStr
  shadowed : Option CStr
  shadowAttr : Option CStr
  mapped : Bool
deriving DecidableEq, Repr

/-- The serialized record of a `PropertyLinkSub` (`<LinkSub>` with its
`<Sub/>` children; the `count` attribute is the entry-list length). -/
structure LinkSubRecord where
  value : CStr
  entries : List SubEntry
deriving DecidableEq, Repr

/-- The persistent state of a `PropertyLinkSub`. -/
structure LinkSubState where
  pcLinkSub : Option Obj
  cSubList : List CStr
  shadowSubList : List ShadowSub
  mapped : List Nat
deriving DecidableEq, Repr

/-- The non-exporting arm of `PropertyLinkSub::Save` (lines 1851-1880)
for one subname: `value` is the old-style shadow name when present, else
the visible sub; a nonempty visible sub differing from `value` is stored
in `shadowed`, otherwise a nonempty new-style shadow goes to `shadow`. -/
def saveSubEntry (cSub : CStr) (sh : ShadowSub) : SubEntry :=
  let v := if sh.oldName = [] then cSub else sh.oldName
  { value := v
    shadowed := if cSub ≠ [] ∧ v ≠ cSub then some cSub else none
    shadowAttr :=
      if cSub ≠ [] ∧ v = cSub ∧ sh.newName ≠ [] then some sh.newName else none
    mapped := false }

/-- `PropertyLinkSub::Save` (lines 1835-1884), non-exporting: the link
name (empty unless attached) and one entry per subname. -/
def linkSubSave (h : DocHost) (st : LinkSubState) : LinkSubRecord :=
  { value :=
      match st.pcLinkSub with
      | some o => if h.attached o then h.exportName o else []
      | none => []
    entries := List.zipWith saveSubEntry st.cSubList st.shadowSubList }

/-- The per-entry arm of `PropertyLinkSub::Restore` (lines 1914-1931):
`oldName` is the `value` attribute; a `shadowed` attribute becomes both
the visible value and `newName`, otherwise the visible value is the
`value` attribute and a `shadow` attribute becomes `newName`. -/
def restoreSubEntry (e : SubEntry) : CStr × ShadowSub :=
  match e.shadowed with
  | some s => (s, { newName := s, oldName := e.value })
  | none =>
    (e.value,
      { newName := match e.shadowAttr with | some s => s | none => []
        oldName := e.value })

/-- `PropertyLinkSub::Restore` (lines 1886-1943): look the stored link
name up (missing: warning on verbose readers, then `setValue(nullptr)`),
parse the entries, and install values and shadows through
`setValue(pcObject, values, shadows)` (which keeps the shadows because
the sizes match, line 1351) plus `_mapped`. -/
def linkSubRestore (h : DocHost) (verbose : Bool) (prevMapped : List Nat)
    (r : LinkSubRecord) : LinkSubState × List Warn :=
  let pcObject : Option Obj := if r.value ≠ [] then h.getObject r.value else none
  let warns : List Warn :=
    if r.value ≠ [] ∧ h.getObject r.value = none ∧ verbose = true then [Warn.lostLink]
    else []
  let parsed := r.entries.map restoreSubEntry
  let mapped := r.entries.enum.filterMap fun ie =>
    if ie.2.mapped then some ie.1 else none
  match pcObject with
  | some o =>
    ({ pcLinkSub := some o
       cSubList := parsed.map Prod.fst
       shadowSubList := parsed.map Prod.snd
       mapped := mapped }, warns)
  | none =>
    ({ pcLinkSub := none, cSubList := [], shadowSubList := []
       mapped := prevMapped }, warns)

/-- The byte stream `PropertyLinkSub::Save` produces for one `<Sub/>`
element, with the writer indentation and `encodeAttribute` abstracted. -/
def renderSubEntry (ind : CStr) (enc : CStr → CStr) (e : SubEntry) : CStr :=
  ind ++ ("<Sub value=\"".toList) ++ enc e.value
    ++ (match e.shadowed with
      | some s => ("\" shadowed=\"".toList) ++ enc s
      | none => [])
    ++ (match e.shadowAttr with
      | some s => ("\" shadow=\"".toList) ++ enc s
      | none => [])
    ++ (if e.mapped then ("\" mapped=\"1".toList) else [])
    ++ ("\"/>\n".toList)

/-- The byte stream of the whole `<LinkSub>` element. -/
def renderLinkSubRecord (ind ind2 : CStr) (enc : CStr → CStr)
    (r : LinkSubRecord) : CStr :=
  ind ++ ("<LinkSub value=\"".toList) ++ r.value ++ ("\" count=\"".toList)
    ++ (toString r.entries.length).toList ++ ("\">\n".toList)
    ++ (r.entries.map (renderSubEntry ind2 enc)).flatten
    ++ ind ++ ("</LinkSub>\n".toList)

/-! ## C9: document deletion and external references

`DocInfo::slotDeleteDocument` (lines 3607-3652) and
`PropertyXLink::detach` (lines 3756-3764). -/

/-- The state of one `PropertyXLink` relevant to document deletion. -/
structure XLink where
  linkId : Nat
  /-- document of the link's owner object (`getContainer()->getDocument()`). -/
  ownerDoc : Nat
  /-- the stored target name string. -/
  objectName : CStr
  /-- the live target pointer (`_pcLink`). -/
  pcLink : Option Obj
  /-- whether `docInfo` is set. -/
  hasDocInfo : Bool
  /-- the `LinkDetached` flag. -/
  flagDetached : Bool
  /-- the aggregating parent property (`parentProp`), if any. -/
  parentProp : Option Nat
deriving DecidableEq, Repr

/-- A `DocInfo` descriptor: file path key, attached document,
registered links. -/
structure DocInfoState where
  myPath : CStr
  pcDoc : Option Nat
  links : List XLink
deriving DecidableEq, Repr

/-- `PropertyXLink::unlink` (lines 3746-3754): drop the descriptor,
clear the stored name, reset the link. -/
def unlinkX (l : XLink) : XLink :=
  { l with hasDocInfo := false, objectName := [], pcLink := none }

/-- `PropertyXLink::detach` (lines 3756-3764): when a descriptor and a
live target exist, clear the live pointer (inside a hook pair). -/
def detachX (l : XLink) : XLink :=
  if l.hasDocInfo = true ∧ l.pcLink.isSome then { l with pcLink := none } else l

/-- Change-notification events around document deletion. -/
inductive XEv where
  | parentPre (pid : Nat)
  | parentPost (pid : Nat)
  | childPre (linkId : Nat)
  | childPost (linkId : Nat)
deriving DecidableEq, Repr

/-- The hook events `PropertyXLink::detach` emits (guarded exactly like
the state change). -/
def detachTrace (l : XLink) : List XEv :=
  if l.hasDocInfo = true ∧ l.pcLink.isSome then
    [XEv.childPre l.linkId, XEv.childPost l.linkId]
  else []

/-- The grouping keys of the `parentLinks` map built on lines 3628-3637:
one per distinct aggregating parent (`none` for parentless links). -/
def groupKeys (ls : List XLink) : List (Option Nat) :=
  (ls.map (fun l => l.parentProp)).dedup

/-- The events of one group iteration (lines 3638-3650): the parent's
pre-change hook, each member's detach, the parent's post-change hook. -/
def groupTrace (flagged : List XLink) (k : Option Nat) : List XEv :=
  (match k with | some p => [XEv.parentPre p] | none => [])
    ++ (flagged.filter (fun l => l.parentProp = k)).flatMap detachTrace
    ++ (match k with | some p => [XEv.parentPost p] | none => [])

/-- `DocInfo::slotDeleteDocument` (lines 3607-3652): links owned by the
dying document are removed and unlinked; when the dying document is the
attached one, every remaining link gets the `LinkDetached` flag and is
detached, grouped per aggregating parent property under one hook pair
per group.  Returns the new descriptor state, the unlinked links, and
the notification trace. -/
def slotDeleteDocument (doc : Nat) (st : DocInfoState) :
    DocInfoState × List XLink × List XEv :=
  let dying := st.links.filter (fun l => l.ownerDoc = doc)
  let rest := st.links.filter (fun l => l.ownerDoc ≠ doc)
  let unlinked := dying.map unlinkX
  if rest.isEmpty then
    ({ st with links := [], pcDoc := none }, unlinked, [])
  else if st.pcDoc ≠ some doc then
    ({ st with links := rest }, unlinked, [])
  else
    let flagged := rest.map (fun l => { l with flagDetached := true })
    ({ st with links := flagged.map detachX, pcDoc := none }, unlinked,
      (groupKeys flagged).flatMap (groupTrace flagged))

/-- A host where no name resolves to an object. -/
def emptyHost : DocHost :=
  { getObject := fun _ => none, exportName := fun _ => [], attached := fun _ => true }

/-- A host holding exactly the object `Box` (id 1). -/
def boxHost : DocHost :=
  { getObject := fun n => if n = ("Box".toList) then some ⟨1⟩ else none
    exportName := fun _ => "Box".toList
    attached := fun _ => true }

/-- A `PropertyLinkSub` pointing at `Box.Face1` with a new-style shadow. -/
def linkSubStateEx : LinkSubState :=
  { pcLinkSub := some ⟨1⟩
    cSubList := ["Face1".toList]
    shadowSubList := [{ newName := ";g1;Face1".toList, oldName := [] }]
    mapped := [] }

/-- An external link into document 7, owned by document 0, aggregated
under parent property 4. -/
def xlinkEx : XLink :=
  { linkId := 1, ownerDoc := 0, objectName := "Box".toList
    pcLink := some ⟨5⟩, hasDocInfo := true, flagDetached := false
    parentProp := some 4 }

/-- A descriptor for document 7 holding `xlinkEx`. -/
def docInfoEx : DocInfoState :=
  { myPath := "ext.FCStd".toList, pcDoc := some 7, links := [xlinkEx] }

/-! ## C5: `PropertyLinkBase::updateLabelReference` (lines 190-215)

`DocumentObject::getSubObject` is an external collaborator and appears as
the abstract function `gso`.  The C++ function returns an empty string as
the no-op sentinel; that sentinel is `none` here. -/

/-- Whether `needle` occurs in `hay` at index `i`. -/
def occursAt (hay needle : CStr) (i : Nat) : Bool :=
  decide ((hay.drop i).take needle.length = needle)

/-- `strstr` searching from offset `start`: the first index `i ≥ start`
at which `needle` occurs in `hay`. -/
def strstrFrom (hay needle : CStr) (start : Nat) : Option Nat :=
  (List.range (hay.length + 1)).find? fun i =>
    decide (start ≤ i) && occursAt hay needle i

/-- The scan loop of `updateLabelReference` (lines 204-213): find the
next occurrence of `ref`, resolve the subname prefix up to and including
it against `parent`, and on a hit replace the label text (indices
`pos + 1` through `pos + ref.size() - 1`) with `newLabel`; otherwise
continue after the occurrence.  `fuel` bounds the iterations; each failed
iteration advances the scan position by `ref.length`, so
`subname.length + 2` iterations always suffice for a nonempty `ref`. -/
def updLabelLoop (gso : Obj → CStr → Option Obj) (par o : Obj)
    (subname ref newLabel : CStr) : Nat → Nat → Option CStr
  | 0, _ => none
  | fuel + 1, pos =>
    match strstrFrom subname ref pos with
    | none => none
    | some i =>
      if gso par (subname.take (i + ref.length)) = some o then
        some (subname.take (i + 1) ++ newLabel ++ subname.drop (i + ref.length - 1))
      else
        updLabelLoop gso par o subname ref newLabel fuel (i + ref.length)

/-- `PropertyLinkBase::updateLabelReference` (lines 190-215): guard on a
null or detached `obj`/`parent`, then the scan loop. -/
def updateLabelReference (gso : Obj → CStr → Option Obj) (attached : Obj → Bool)
    (parent : Option Obj) (subname : CStr) (obj : Option Obj)
    (ref newLabel : CStr) : Option CStr :=
  match obj, parent with
  | some o, some par =>
    if attached o && attached par then
      updLabelLoop gso par o subname ref newLabel (subname.length + 2) 0
    else none
  | _, _ => none

/-- The copying half of the `updateLinkSubs` template (lines 1946-1971),
entered after the first change: patch or copy each remaining subname. -/
def ulsCopy (f : CStr → Option CStr) : List CStr → List CStr
  | [] => []
  | sub :: rest =>
    (match f sub with | some ns => ns | none => sub) :: ulsCopy f rest

/-- The scan half of `updateLinkSubs` before the first change: nothing
copied yet; the first change emits the unchanged prefix and switches to
the copying half. -/
def ulsScan (f : CStr → Option CStr) : List CStr → List CStr → List CStr
  | [], _ => []
  | sub :: rest, done =>
    match f sub with
    | some ns => done ++ ns :: ulsCopy f rest
    | none => ulsScan f rest (done ++ [sub])

/-- `updateLinkSubs` (lines 1946-1971): the empty result signals that no
subname changed. -/
def updateLinkSubsList (f : CStr → Option CStr) (subs : List CStr) : List CStr :=
  ulsScan f subs []

/-- `PropertyLinkSub::CopyOnLabelChange` (lines 2002-2023): guards on the
owner and the linked object, the `updateLinkSubs` scan, and a null result
(no new property) when nothing changed. -/
def copyOnLabelChangeLinkSub (gso : Obj → CStr → Option Obj)
    (attached : Obj → Bool) (ownerOk : Bool) (st : LinkSubState)
    (obj : Option Obj) (ref newLabel : CStr) : Option LinkSubState :=
  if !ownerOk then none
  else
    match st.pcLinkSub with
    | none => none
    | some l =>
      if !(attached l) then none
      else
        let subs := updateLinkSubsList
          (fun sub => updateLabelReference gso attached (some l) sub obj ref newLabel)
          st.cSubList
        if subs = [] then none
        else some { pcLinkSub := some l, cSubList := subs,
                    shadowSubList := [], mapped := [] }

/-- A resolver where object 10 resolves the path `A.$Box.` to object 1
and nothing else resolves. -/
def labelGso : Obj → CStr → Option Obj :=
  fun p s => if p = ⟨10⟩ ∧ s = ("A.$Box.".toList) then some ⟨1⟩ else none

/-! ## C4: `PropertyLinkBase::tryReplaceLink` (lines 548-621)

A subname is its list of dot-separated segments, the last being the
element token without a trailing dot; the loop of lines 585-619 visits
exactly the segments that are followed by another segment, resolving the
dotted prefix from the linked object each time.  `getSubObject` is
external; `getSub` resolves one segment (name or `$label` form).  The
source recursion (the old/new swap, lines 572-577 and 611-612) reaches
depth at most 2, so the embedding carries a fuel argument consumed only
by that swap recursion and the top-level call supplies 2. -/

/-- The external resolution and naming facts `tryReplaceLink` uses. -/
structure LinkWorld where
  getSub : Obj → String → Option Obj
  nameOf : Obj → String
  labelOf : Obj → String

/-- `DocumentObject::getSubObject` on a segment path (external
collaborator, resolved segmentwise). -/
def getSubObject (w : LinkWorld) (o : Obj) : List String → Option Obj
  | [] => some o
  | s :: rest =>
    match w.getSub o s with
    | none => none
    | some c => getSubObject w c rest

/-- The segment patch of lines 599-604: a `$label` segment is replaced
with the new object's label, a plain segment with its document name. -/
def replaceSeg (w : LinkWorld) (newObj : Obj) (s : String) : String :=
  match s.toList with
  | '$' :: _ => "$" ++ w.labelOf newObj
  | _ => w.nameOf newObj

/-- The scan loop of lines 585-619: resolve each dotted prefix from the
linked object; a hit on the old object replaces its segment only when
the previously resolved object (`prev`) is the stated parent, else the
loop breaks; a hit on the new object swaps old and new and rescans the
whole subname (`auxNext`, the source's recursive `tryReplaceLink` call);
passing the parent position without a hit breaks. -/
def replLoopF (w : LinkWorld)
    (auxNext : Option Obj → Option Obj → Option Obj → Obj → Obj →
      List String → Option (Obj × List String))
    (owner : Option Obj) (root : Obj) (parent : Option Obj)
    (oldObj newObj : Obj) (origSub : List String) :
    List String → Obj → List String → Option (Obj × List String)
  | _, _, [] => none
  | done, prev, s :: rest =>
    if rest = [] then none
    else
      match getSubObject w root (done ++ [s]) with
      | none => none
      | some sobj =>
        if sobj = oldObj then
          if parent = some prev then
            some (root, done ++ replaceSeg w newObj s :: rest)
          else none
        else if sobj = newObj then
          auxNext owner (some root) parent newObj oldObj origSub
        else if parent = some prev then none
        else
          replLoopF w auxNext owner root parent oldObj newObj origSub
            (done ++ [s]) sobj rest

/-- `PropertyLinkBase::tryReplaceLink` (lines 548-621): the null check,
the direct-link cases (replace when the owner is the stated parent; swap
when the new object is already the link), then the path scan.  The fuel
is consumed only by the old/new swap recursion, whose depth in the
source never exceeds 2. -/
def tryReplaceLinkAux (w : LinkWorld) :
    Nat → Option Obj → Option Obj → Option Obj → Obj → Obj → List String →
    Option (Obj × List String)
  | 0, _, _, _, _, _, _ => none
  | fuel + 1, owner, obj?, parent, oldObj, newObj, sub =>
    match obj? with
    | none => none
    | some obj =>
      if obj = oldObj then
        if owner = parent then some (newObj, sub) else none
      else if obj = newObj then
        tryReplaceLinkAux w fuel owner obj? parent newObj oldObj sub
      else if sub = [] then none
      else
        replLoopF w (tryReplaceLinkAux w fuel) owner obj parent oldObj newObj
          sub [] obj sub

/-- The top-level `tryReplaceLink` call (the swap recursion of the source
never exceeds depth 2). -/
def tryReplaceLink (w : LinkWorld) (owner obj parent : Option Obj)
    (oldObj newObj : Obj) (sub : List String) : Option (Obj × List String) :=
  tryReplaceLinkAux w 2 owner obj parent oldObj newObj sub

/-- A substitution position sanctioned by the parent context: either the
direct link itself is the old object (or, by the swap, the new one) and
the owner is the stated parent, or some path position resolves to the
old (or new) object while the chain up to the preceding segment resolves
to the stated parent. -/
def ReplaceAtParent (w : LinkWorld) (owner : Option Obj) (obj : Option Obj)
    (parent : Option Obj) (oldObj newObj : Obj) (sub : List String) : Prop :=
  (owner = parent ∧ (obj = some oldObj ∨ obj = some newObj))
  ∨ ∃ (o : Obj) (done : List String) (s : String) (rest : List String),
      obj = some o ∧ sub = done ++ s :: rest ∧ rest ≠ []
      ∧ (∃ p, getSubObject w o done = some p ∧ parent = some p)
      ∧ (getSubObject w o (done ++ [s]) = some oldObj
        ∨ getSubObject w o (done ++ [s]) = some newObj)

/-! ## C6: `PropertyLinkBase::_updateElementReference` (lines 398-546)

The geometry engine (`GeoFeature::resolveElement`,
`searchElementCache`, `Data::hasMissingElement`, `findElementName`,
`hasMappedElementName`) is an external collaborator, abstracted as a
world of functions.  The function is embedded as a state transformer on
the pair `(sub, shadow)` returning the touched flag; the
element-backlink registry insertion (lines 436-438) and the
`aboutToSetValue` notification (lines 480-482) are not part of this
state. -/

/-- The outcome of one `GeoFeature::resolveElement` call: the returned
object, the `elementName` out-parameter, the `element` out-parameter
(empty encodes null or empty), and the `geo` out-parameter. -/
structure ResolveResult where
  ret : Option Obj
  elem : ShadowSub
  element : CStr
  geo : Option Obj
deriving DecidableEq, Repr

/-- The geometry/naming collaborators consumed by
`_updateElementReference`. -/
structure GeoWorld where
  resolve : Obj → CStr → ResolveResult
  hasMissingElement : CStr → Bool
  findElementName : CStr → CStr
  hasMappedElementName : CStr → Bool
  searchElementCache : Obj → CStr → List CStr
  attached : Obj → Bool

/-- The query-name selection of lines 409-418: the new-style shadow if
present, else the old-style shadow, else the visible sub. -/
def refQuery (sub : CStr) (sh : ShadowSub) : CStr :=
  if sh.newName ≠ [] then sh.newName
  else if sh.oldName ≠ [] then sh.oldName
  else sub

/-- `std::string::rfind('.')`. -/
def rfindDot (s : CStr) : Option Nat :=
  match s.reverse.findIdx? (fun c => c = '.') with
  | none => none
  | some j => some (s.length - 1 - j)

/-- The mapped-name rewrite of lines 501-503: when the sub uses
content-based (mapped) encoding, its visible value becomes the new
shadow name. -/
def mappedChoice (w : GeoWorld) (sub : CStr) (sh1 : ShadowSub) : CStr :=
  if sh1.newName ≠ [] ∧ w.hasMappedElementName sub = true then sh1.newName
  else sub

/-- The trailing positional patch of lines 521-545: when the positions
after the last dot agree, patch only the trailing component; when the
prefixes diverge, fall back to the full positional name. -/
def positionalPatch (sub1 : CStr) (sh1 : ShadowSub) : CStr :=
  match rfindDot sh1.newName with
  | none => sub1
  | some d2 =>
    let pos2 := d2 + 1
    let pos :=
      match rfindDot sub1 with
      | none => 0
      | some d => d + 1
    if pos = pos2 then
      if sub1.drop pos ≠ sh1.newName.drop pos2 then
        sub1.take pos ++ sh1.newName.drop pos2
      else sub1
    else if sub1 ≠ sh1.oldName then sh1.oldName
    else sub1

/-- `PropertyLinkBase::_updateElementReference` (lines 398-546): the
guards, the resolution, the early exits of lines 429-448, the
missing-element search branch of lines 450-478 (live only when the
changed feature is the resolved geometry), the shadow adoption, and the
sub rewriting of lines 491-545. -/
def updateElementRef (w : GeoWorld) (feature : Option Obj) (obj : Option Obj)
    (reverse : Bool) (st : CStr × ShadowSub) : Bool × (CStr × ShadowSub) :=
  match obj with
  | none => (false, st)
  | some o =>
    if w.attached o = false then (false, st)
    else
      let sub := st.1
      let shadow := st.2
      let subname := refQuery sub shadow
      let r := w.resolve o subname
      if r.ret = none ∨ r.geo = none ∨ r.element = [] then
        (false, (sub,
          if r.elem.oldName ≠ [] then { shadow with oldName := r.elem.oldName }
          else shadow))
      else if reverse = false ∧ r.elem.newName = [] then
        (false, (sub, { shadow with oldName := r.elem.oldName }))
      else if reverse = false ∧ shadow = r.elem then
        (false, (sub, shadow))
      else
        let missing0 := w.hasMissingElement r.elem.oldName
        let searched :=
          if feature = r.geo ∧ (missing0 = true ∨ reverse = true) then
            let oldElement := w.findElementName shadow.oldName
            if w.hasMissingElement oldElement = false then
              match w.searchElementCache (r.geo.getD o) oldElement with
              | [] => (missing0, r.elem)
              | n :: _ =>
                (false,
                  (w.resolve o
                    (subname.take (subname.length - r.element.length) ++ n)).elem)
            else (missing0, r.elem)
          else (missing0, r.elem)
        let missing := searched.1
        let elemN := searched.2
        let shadow1 :=
          if missing = true then { shadow with oldName := elemN.oldName }
          else elemN
        let sub1 :=
          if missing = true then sub else mappedChoice w sub shadow1
        if reverse = true then
          (true,
            (if shadow1.newName ≠ [] ∧ w.hasMappedElementName sub1 = true then
              shadow1.newName
            else shadow1.oldName, shadow1))
        else if missing = true then
          (true,
            (if sub1 ≠ shadow1.newName then shadow1.oldName else sub1, shadow1))
        else (true, (positionalPatch sub1 shadow1, shadow1))

/-- A forward (`reverse = false`) element-reference update with no
changed-feature context (`feature = nullptr`), as run by
`updateElementReference(nullptr)` after a value change. -/
def updRef (w : GeoWorld) (o : Obj) (st : CStr × ShadowSub) :
    Bool × (CStr × ShadowSub) :=
  updateElementRef w none (some o) false st

/-- "No intervening topology change", as constraints on the external
resolver: re-resolving a name the resolver itself produced (new- or
old-style) yields the same result as the query that produced it, and a
successful resolution always carries a positional (old-style) name. -/
def StableResolve (w : GeoWorld) (o : Obj) : Prop :=
  (∀ q, (w.resolve o q).elem.newName ≠ [] →
    w.resolve o ((w.resolve o q).elem.newName) = w.resolve o q)
  ∧ (∀ q, (w.resolve o q).elem.oldName ≠ [] →
    w.resolve o ((w.resolve o q).elem.oldName) = w.resolve o q)
  ∧ (∀ q, (w.resolve o q).ret ≠ none → (w.resolve o q).elem.oldName ≠ [])

/-- A stable world where the element `m0` resolved through `e0` carries
the missing-element marker: `e0`, `m0` and `n1` all resolve to the same
result whose old-style name `m0` is missing. -/
def missingGeoWorld : GeoWorld :=
  { resolve := fun _ q =>
      if q = ("e0".toList) ∨ q = ("m0".toList) ∨ q = ("n1".toList) then
        { ret := some ⟨1⟩
          elem := { newName := "n1".toList, oldName := "m0".toList }
          element := "m0".toList, geo := some ⟨2⟩ }
      else
        { ret := none, elem := { newName := [], oldName := [] }
          element := [], geo := none }
    hasMissingElement := fun s => decide (s = ("m0".toList))
    findElementName := fun s => s
    hasMappedElementName := fun _ => false
    searchElementCache := fun _ _ => []
    attached := fun _ => true }

/-- A stable world with a single healthy resolution: everything resolves
to element `p` with new-style name `n`. -/
def stableGeoWorld : GeoWorld :=
  { resolve := fun _ _ =>
      { ret := some ⟨1⟩
        elem := { newName := "n".toList, oldName := "p".toList }
        element := "p".toList, geo := some ⟨2⟩ }
    hasMissingElement := fun _ => false
    findElementName := fun s => s
    hasMappedElementName := fun _ => false
    searchElementCache := fun _ _ => []
    attached := fun _ => true }

/-- The world of the spec scenario: the linked object 0 has children
`oldObj` (object 1) and `newObj` (object 2). -/
def replWorld : LinkWorld :=
  { getSub := fun o s =>
      if o = ⟨0⟩ ∧ s = "oldObj" then some ⟨1⟩
      else if o = ⟨0⟩ ∧ s = "newObj" then some ⟨2⟩
      else none
    nameOf := fun o =>
      if o = ⟨2⟩ then "newObj" else if o = ⟨1⟩ then "oldObj" else "obj"
    labelOf := fun _ => "L" }

/-- C1.  The claim states `isSame` returns true iff the two properties have
the same scope and identical `all = true` target and subname sequences.
The code refutes this for every pair of distinct link properties: because
line 103 tests `other.isDerivedFrom<PropertyLinkBase>()` without negation,
any `other` that *is* a link property short-circuits to `false`, even with
identical scope, targets and subnames.  The `static_cast` on line 104 only
makes sense when `other` is a `PropertyLinkBase`, so the intended test is
the negated one; the code is a slip.  Here `sameContentP` and
`sameContentQ` have equal scope, targets and subname sequences (old and
new style), yet `isSame` returns `false`. -/
theorem c1_isSame_code_bug :
    (sameContentP.scope = sameContentQ.scope
      ∧ sameContentP.linkObjs = sameContentQ.linkObjs
      ∧ sameContentP.subsNew = sameContentQ.subsNew
      ∧ sameContentP.subsOld = sameContentQ.subsOld
      ∧ sameContentP.propId ≠ sameContentQ.propId)
    ∧ isSame sameContentP sameContentQ = false := by
  decide

/-! ### C2 helper lemmas -/

theorem linkBacklinkEvs_mem_isBacklink (scope : LinkScope) (parent : Option Owner)
    (cur lValue : Option Obj) :
    ∀ e ∈ linkBacklinkEvs scope parent cur lValue, e.isBacklink = true := by
  intro e he
  cases parent with
  | none => simp [linkBacklinkEvs] at he
  | some p =>
    simp only [linkBacklinkEvs] at he
    split at he
    · simp at he
    · split at he
      · simp at he
      · rcases List.mem_append.1 he with h | h <;>
          cases cur <;> cases lValue <;> simp_all [Ev.isBacklink]

theorem linkBacklinkEvs_hidden (parent : Option Owner) (cur lValue : Option Obj) :
    linkBacklinkEvs LinkScope.Hidden parent cur lValue = [] := by
  cases parent <;> simp [linkBacklinkEvs]

theorem linkBacklinkEvs_destroy (scope : LinkScope) (p : Owner)
    (cur lValue : Option Obj) (hp : p.destroy = true) :
    linkBacklinkEvs scope (some p) cur lValue = [] := by
  simp [linkBacklinkEvs, hp]

theorem listBacklinkEvs_mem_isBacklink (scope : LinkScope) (parent : Option Owner)
    (curList lValue : List (Option Obj)) :
    ∀ e ∈ listBacklinkEvs scope parent curList lValue, e.isBacklink = true := by
  intro e he
  cases parent with
  | none => simp [listBacklinkEvs] at he
  | some p =>
    simp only [listBacklinkEvs] at he
    split at he
    · rcases List.mem_append.1 he with h | h <;>
      · rcases List.mem_filterMap.1 h with ⟨o, _, ho⟩
        cases o with
        | none => simp at ho
        | some v =>
          simp only [Option.map_some'] at ho
          rw [← Option.some_inj.1 ho]
          rfl
    · simp at he

theorem listBacklinkEvs_hidden (parent : Option Owner)
    (curList lValue : List (Option Obj)) :
    listBacklinkEvs LinkScope.Hidden parent curList lValue = [] := by
  cases parent <;> simp [listBacklinkEvs]

theorem listBacklinkEvs_destroy (scope : LinkScope) (p : Owner)
    (curList lValue : List (Option Obj)) (hp : p.destroy = true) :
    listBacklinkEvs scope (some p) curList lValue = [] := by
  simp [listBacklinkEvs, hp]

/-- C2 counterexample.  The claim orders every value-replacing mutation as
pre-change hook first, then backlink removal.  In
`PropertyLinkSubList::setValues` (lines 2315-2363) the backlink block runs
before `aboutToSetValue`: replacing old value `[obj 1]` by `[obj 2]` under
a live owner emits `removeBackLink` as the very first event. -/
theorem c2_suborder_counterexample :
    subListSetValues oneDocWorld true LinkScope.Global (some liveOwner)
        [some ⟨1⟩] [some ⟨2⟩] ["Edge1"]
      = some [Ev.removeBackLink ⟨1⟩ ⟨0⟩, Ev.addBackLink ⟨2⟩ ⟨0⟩,
          Ev.aboutToSetValue, Ev.install, Ev.hasSetValue]
    ∧ ([Ev.removeBackLink ⟨1⟩ ⟨0⟩, Ev.addBackLink ⟨2⟩ ⟨0⟩,
          Ev.aboutToSetValue, Ev.install, Ev.hasSetValue].head?
        ≠ some Ev.aboutToSetValue) := by
  decide

/-- C2 (amended).  In `PropertyLink::setValue` the order is as claimed:
pre-change hook, then the backlink block (empty for Hidden scope or a
pending-destroy owner), then install, then post-change hook.  In
`PropertyLinkSubList::setValues` the backlink block instead precedes the
pre-change hook; installation still happens between the two hooks, the
post-change hook is last, and the same Hidden/pending-destroy guard
applies. -/
theorem c2_mutation_step_order :
    (∀ (w : DocWorld) (ae : Bool) (scope : LinkScope) (parent : Option Owner)
        (cur lValue : Option Obj) (tr : List Ev),
      linkSetValue w ae scope parent cur lValue = some tr →
      ∃ bl, tr = Ev.aboutToSetValue :: (bl ++ [Ev.install, Ev.hasSetValue])
        ∧ (∀ e ∈ bl, e.isBacklink = true)
        ∧ (scope = LinkScope.Hidden → bl = [])
        ∧ (∀ p, parent = some p → p.destroy = true → bl = []))
    ∧ (∀ (w : DocWorld) (ae : Bool) (scope : LinkScope) (parent : Option Owner)
        (curList lValue : List (Option Obj)) (subs : List String) (tr : List Ev),
      subListSetValues w ae scope parent curList lValue subs = some tr →
      ∃ bl, tr = bl ++ [Ev.aboutToSetValue, Ev.install, Ev.hasSetValue]
        ∧ (∀ e ∈ bl, e.isBacklink = true)
        ∧ (scope = LinkScope.Hidden → bl = [])
        ∧ (∀ p, parent = some p → p.destroy = true → bl = [])) := by
  constructor
  · intro w ae scope parent cur lValue tr h
    simp only [linkSetValue] at h
    split at h
    · exact absurd h (by simp)
    · refine ⟨linkBacklinkEvs scope parent cur lValue, ?_, ?_, ?_, ?_⟩
      · simpa using h.symm
      · exact linkBacklinkEvs_mem_isBacklink _ _ _ _
      · intro hs; subst hs; exact linkBacklinkEvs_hidden _ _ _
      · intro p hp hd; subst hp; exact linkBacklinkEvs_destroy _ _ _ _ hd
  · intro w ae scope parent curList lValue subs tr h
    simp only [subListSetValues] at h
    split at h
    · exact absurd h (by simp)
    · split at h
      · exact absurd h (by simp)
      · refine ⟨listBacklinkEvs scope parent curList lValue, ?_, ?_, ?_, ?_⟩
        · simpa using h.symm
        · exact listBacklinkEvs_mem_isBacklink _ _ _ _
        · intro hs; subst hs; exact listBacklinkEvs_hidden _ _ _
        · intro p hp hd; subst hp; exact listBacklinkEvs_destroy _ _ _ _ hd

/-- C2 witness: the amended order theorem instantiated on the concrete
sub-list mutation of the counterexample. -/
theorem c2_mutation_step_order_witness :
    ∃ bl, ([Ev.removeBackLink ⟨1⟩ ⟨0⟩, Ev.addBackLink ⟨2⟩ ⟨0⟩,
          Ev.aboutToSetValue, Ev.install, Ev.hasSetValue] : List Ev)
        = bl ++ [Ev.aboutToSetValue, Ev.install, Ev.hasSetValue]
      ∧ (∀ e ∈ bl, e.isBacklink = true)
      ∧ (LinkScope.Global = LinkScope.Hidden → bl = [])
      ∧ (∀ p, (some liveOwner : Option Owner) = some p → p.destroy = true → bl = []) :=
  c2_mutation_step_order.2 oneDocWorld true LinkScope.Global (some liveOwner)
    [some ⟨1⟩] [some ⟨2⟩] ["Edge1"] _ (by decide)

/-! ### C3 helper lemmas -/

theorem count_remove_filterMap (l : List (Option Obj)) (k q : Obj) :
    (l.filterMap (fun o => o.map (fun c => Ev.removeBackLink c q))).count
        (Ev.removeBackLink k q) = l.count (some k) := by
  induction l with
  | nil => rfl
  | cons o rest ih =>
    cases o with
    | none => simpa [List.filterMap_cons] using ih
    | some v => simp [List.filterMap_cons, List.count_cons, ih]

theorem count_add_filterMap (l : List (Option Obj)) (k q : Obj) :
    (l.filterMap (fun o => o.map (fun v => Ev.addBackLink v q))).count
        (Ev.addBackLink k q) = l.count (some k) := by
  induction l with
  | nil => rfl
  | cons o rest ih =>
    cases o with
    | none => simpa [List.filterMap_cons] using ih
    | some v => simp [List.filterMap_cons, List.count_cons, ih]

theorem count_add_in_removes (l : List (Option Obj)) (k q : Obj) :
    (l.filterMap (fun o => o.map (fun c => Ev.removeBackLink c q))).count
        (Ev.addBackLink k q) = 0 := by
  induction l with
  | nil => rfl
  | cons o rest ih =>
    cases o with
    | none => simpa [List.filterMap_cons] using ih
    | some v => simp [List.filterMap_cons, List.count_cons, ih]

theorem count_remove_in_adds (l : List (Option Obj)) (k q : Obj) :
    (l.filterMap (fun o => o.map (fun v => Ev.addBackLink v q))).count
        (Ev.removeBackLink k q) = 0 := by
  induction l with
  | nil => rfl
  | cons o rest ih =>
    cases o with
    | none => simpa [List.filterMap_cons] using ih
    | some v => simp [List.filterMap_cons, List.count_cons, ih]

theorem count_backlink_evs (scope : LinkScope) (p : Owner)
    (curList lValue : List (Option Obj)) (k : Obj)
    (hd : p.destroy = false) (hs : scope ≠ LinkScope.Hidden) :
    (listBacklinkEvs scope (some p) curList lValue).count (Ev.addBackLink k p.obj)
        = lValue.count (some k)
      ∧ (listBacklinkEvs scope (some p) curList lValue).count (Ev.removeBackLink k p.obj)
        = curList.count (some k) := by
  simp only [listBacklinkEvs, hd, hs, Bool.not_false, Bool.true_and,
    decide_eq_true_eq, if_pos, decide_not]
  rw [if_pos (by simp [hs])]
  constructor
  · rw [List.count_append, count_add_in_removes, count_add_filterMap]
    omega
  · rw [List.count_append, count_remove_filterMap, count_remove_in_adds]
    omega

/-- C3 counterexample.  The claim says a list property deduplicates: one
net backlink add per distinct target.  Installing `[obj 5, obj 5]` into
`PropertyLinkSubList::setValues` emits `_addBackLink(obj 5)` twice. -/
theorem c3_dedup_counterexample :
    subListSetValues oneDocWorld true LinkScope.Global (some liveOwner)
        [] [some ⟨5⟩, some ⟨5⟩] ["Edge1", "Edge2"]
      = some [Ev.addBackLink ⟨5⟩ ⟨0⟩, Ev.addBackLink ⟨5⟩ ⟨0⟩,
          Ev.aboutToSetValue, Ev.install, Ev.hasSetValue]
    ∧ [Ev.addBackLink ⟨5⟩ ⟨0⟩, Ev.addBackLink ⟨5⟩ ⟨0⟩, Ev.aboutToSetValue,
        Ev.install, Ev.hasSetValue].count (Ev.addBackLink ⟨5⟩ ⟨0⟩) = 2 := by
  decide

/-- C3 (amended).  The list-valued `setValues` of `PropertyLinkSubList`
and `PropertyLinkList` perform one `_removeBackLink` call per occurrence
of a target in the old value and one `_addBackLink` call per occurrence in
the new value — no property-level deduplication; keeping the net backlink
count at one is delegated to the document object (as the source comments
state). -/
theorem c3_backlink_call_per_occurrence :
    (∀ (w : DocWorld) (ae : Bool) (scope : LinkScope) (p : Owner)
        (curList lValue : List (Option Obj)) (subs : List String)
        (tr : List Ev) (k : Obj),
      subListSetValues w ae scope (some p) curList lValue subs = some tr →
      p.destroy = false → scope ≠ LinkScope.Hidden →
      tr.count (Ev.addBackLink k p.obj) = lValue.count (some k)
        ∧ tr.count (Ev.removeBackLink k p.obj) = curList.count (some k))
    ∧ (∀ (w : DocWorld) (ae : Bool) (scope : LinkScope) (p : Owner)
        (curList value : List (Option Obj)) (tr : List Ev) (k : Obj),
      linkListSetValues w ae scope (some p) curList value = some tr →
      p.destroy = false → scope ≠ LinkScope.Hidden → value ≠ [none] →
      tr.count (Ev.addBackLink k p.obj) = value.count (some k)
        ∧ tr.count (Ev.removeBackLink k p.obj) = curList.count (some k)) := by
  constructor
  · intro w ae scope p curList lValue subs tr k h hd hs
    simp only [subListSetValues] at h
    split at h
    · exact absurd h (by simp)
    · split at h
      · exact absurd h (by simp)
      · have htr := Option.some_inj.1 h
        subst htr
        have hc := count_backlink_evs scope p curList lValue k hd hs
        constructor
        · rw [List.count_append, hc.1]
          simp [List.count_cons]
        · rw [List.count_append, hc.2]
          simp [List.count_cons]
  · intro w ae scope p curList value tr k h hd hs hv
    simp only [linkListSetValues] at h
    rw [if_neg hv] at h
    split at h
    · exact absurd h (by simp)
    · have htr := Option.some_inj.1 h
      subst htr
      have hc := count_backlink_evs scope p curList value k hd hs
      constructor
      · rw [List.count_append, hc.1]
        simp [List.count_cons]
      · rw [List.count_append, hc.2]
        simp [List.count_cons]

/-- C3 witness: the per-occurrence count theorem instantiated on the
duplicate-target mutation of the counterexample. -/
theorem c3_backlink_call_per_occurrence_witness :
    [Ev.addBackLink ⟨5⟩ ⟨0⟩, Ev.addBackLink ⟨5⟩ ⟨0⟩, Ev.aboutToSetValue,
        Ev.install, Ev.hasSetValue].count (Ev.addBackLink ⟨5⟩ liveOwner.obj)
      = ([some ⟨5⟩, some ⟨5⟩] : List (Option Obj)).count (some ⟨5⟩)
    ∧ [Ev.addBackLink ⟨5⟩ ⟨0⟩, Ev.addBackLink ⟨5⟩ ⟨0⟩, Ev.aboutToSetValue,
        Ev.install, Ev.hasSetValue].count (Ev.removeBackLink ⟨5⟩ liveOwner.obj)
      = ([] : List (Option Obj)).count (some ⟨5⟩) :=
  c3_backlink_call_per_occurrence.1 oneDocWorld true LinkScope.Global liveOwner
    [] [some ⟨5⟩, some ⟨5⟩] ["Edge1", "Edge2"]
    [Ev.addBackLink ⟨5⟩ ⟨0⟩, Ev.addBackLink ⟨5⟩ ⟨0⟩, Ev.aboutToSetValue,
      Ev.install, Ev.hasSetValue] ⟨5⟩ (by decide) rfl (by decide)

/-! ### C10 helper lemmas -/

theorem unregisterRefs_nil {κ : Type} [DecidableEq κ] (m : Registry κ) (p : Nat) :
    unregisterRefs m p [] = m := rfl

theorem unregisterRefs_cons {κ : Type} [DecidableEq κ] (m : Registry κ) (p : Nat)
    (k : κ) (ks : List κ) :
    unregisterRefs m p (k :: ks) = unregisterRefs (unregisterKey p k m) p ks := rfl

theorem unregisterKey_keys_sublist {κ : Type} [DecidableEq κ] (p : Nat) (key : κ)
    (m : Registry κ) :
    ((unregisterKey p key m).map Prod.fst).Sublist (m.map Prod.fst) := by
  induction m with
  | nil => simp [unregisterKey]
  | cons e rest ih =>
    obtain ⟨k, s⟩ := e
    simp only [unregisterKey, List.map_cons]
    split
    · split
      · exact (List.Sublist.refl _).cons _
      · simp only [List.map_cons]
        exact List.Sublist.refl _
    · simp only [List.map_cons]
      exact ih.cons₂ _

theorem unregisterKey_no_empty {κ : Type} [DecidableEq κ] (p : Nat) (key : κ)
    (m : Registry κ) (h : ∀ k s, (k, s) ∈ m → s ≠ []) :
    ∀ k s, (k, s) ∈ unregisterKey p key m → s ≠ [] := by
  induction m with
  | nil => intro k s hm; simp [unregisterKey] at hm
  | cons e rest ih =>
    obtain ⟨k0, s0⟩ := e
    intro k s hm
    simp only [unregisterKey] at hm
    split at hm
    · split at hm
      · exact h k s (List.mem_cons_of_mem _ hm)
      · rename_i hne
        rcases List.mem_cons.1 hm with h1 | h1
        · rw [Prod.mk.injEq] at h1
          obtain ⟨hk, hs⟩ := h1
          rw [hs]
          intro hnil
          exact hne (by rw [hnil]; rfl)
        · exact h k s (List.mem_cons_of_mem _ h1)
    · rcases List.mem_cons.1 hm with h1 | h1
      · rw [Prod.mk.injEq] at h1
        obtain ⟨hk, hs⟩ := h1
        rw [hs]
        exact h k0 s0 (List.mem_cons_self _ _)
      · exact ih (fun k s hh => h k s (List.mem_cons_of_mem _ hh)) k s h1

theorem unregisterKey_mem_p {κ : Type} [DecidableEq κ] (p : Nat) (key : κ)
    (m : Registry κ) (hnd : (m.map Prod.fst).Nodup) :
    ∀ k s, (k, s) ∈ unregisterKey p key m → p ∈ s → (k, s) ∈ m ∧ k ≠ key := by
  induction m with
  | nil => intro k s hm; simp [unregisterKey] at hm
  | cons e rest ih =>
    obtain ⟨k0, s0⟩ := e
    rw [List.map_cons, List.nodup_cons] at hnd
    obtain ⟨hnd0, hndr⟩ := hnd
    intro k s hm hp
    simp only [unregisterKey] at hm
    split at hm
    · rename_i hkey
      split at hm
      · refine ⟨List.mem_cons_of_mem _ hm, ?_⟩
        intro hk
        apply hnd0
        rw [hkey, ← hk]
        exact List.mem_map.2 ⟨(k, s), hm, rfl⟩
      · rcases List.mem_cons.1 hm with h1 | h1
        · rw [Prod.mk.injEq] at h1
          obtain ⟨hk, hs⟩ := h1
          rw [hs] at hp
          simp [List.mem_filter] at hp
        · refine ⟨List.mem_cons_of_mem _ h1, ?_⟩
          intro hk
          apply hnd0
          rw [hkey, ← hk]
          exact List.mem_map.2 ⟨(k, s), h1, rfl⟩
    · rename_i hkey
      rcases List.mem_cons.1 hm with h1 | h1
      · rw [Prod.mk.injEq] at h1
        obtain ⟨hk, hs⟩ := h1
        subst hk
        subst hs
        exact ⟨List.mem_cons_self _ _, hkey⟩
      · obtain ⟨hin, hne⟩ := ih hndr k s h1 hp
        exact ⟨List.mem_cons_of_mem _ hin, hne⟩

theorem unregisterRefs_removes {κ : Type} [DecidableEq κ] (p : Nat) :
    ∀ (keys : List κ) (m : Registry κ),
      (m.map Prod.fst).Nodup →
      (∀ k s, (k, s) ∈ m → p ∈ s → k ∈ keys) →
      ∀ k s, (k, s) ∈ unregisterRefs m p keys → p ∉ s := by
  intro keys
  induction keys with
  | nil =>
    intro m _ hcov k s hm hp
    rw [unregisterRefs_nil] at hm
    exact absurd (hcov k s hm hp) (List.not_mem_nil _)
  | cons k1 ks ih =>
    intro m hnd hcov k s hm hp
    rw [unregisterRefs_cons] at hm
    have hnd2 : ((unregisterKey p k1 m).map Prod.fst).Nodup :=
      hnd.sublist (unregisterKey_keys_sublist p k1 m)
    have hcov2 : ∀ k s, (k, s) ∈ unregisterKey p k1 m → p ∈ s → k ∈ ks := by
      intro k s hks hpm
      obtain ⟨hin, hne⟩ := unregisterKey_mem_p p k1 m hnd k s hks hpm
      rcases List.mem_cons.1 (hcov k s hin hpm) with h | h
      · exact absurd h hne
      · exact h
    exact ih (unregisterKey p k1 m) hnd2 hcov2 k s hm hp

theorem unregisterRefs_no_empty {κ : Type} [DecidableEq κ] (p : Nat) :
    ∀ (keys : List κ) (m : Registry κ),
      (∀ k s, (k, s) ∈ m → s ≠ []) →
      ∀ k s, (k, s) ∈ unregisterRefs m p keys → s ≠ [] := by
  intro keys
  induction keys with
  | nil =>
    intro m hne k s hm
    rw [unregisterRefs_nil] at hm
    exact hne k s hm
  | cons k1 ks ih =>
    intro m hne k s hm
    rw [unregisterRefs_cons] at hm
    exact ih (unregisterKey p k1 m) (unregisterKey_no_empty p k1 m hne) k s hm

/-- C10.  Destroying a reference property unregisters it from the label
registry and the element-backlink registry; afterwards neither registry
holds the dead property in any member set, nor any entry with an empty
member set.  Hypotheses: registry keys are unique (`std::unordered_map`),
the property is only registered under keys it recorded in `_LabelRefs` /
`_ElementRefs` (the registration invariant), and no empty entry existed
before (the same cleanup invariant). -/
theorem c10_registry_cleanup
    (labelMap : Registry String) (elemMap : Registry Obj) (p : Nat)
    (labelRefs : List String) (elemRefs : List Obj)
    (hnd1 : (labelMap.map Prod.fst).Nodup) (hnd2 : (elemMap.map Prod.fst).Nodup)
    (hcov1 : ∀ k s, (k, s) ∈ labelMap → p ∈ s → k ∈ labelRefs)
    (hcov2 : ∀ k s, (k, s) ∈ elemMap → p ∈ s → k ∈ elemRefs)
    (hne1 : ∀ k s, (k, s) ∈ labelMap → s ≠ [])
    (hne2 : ∀ k s, (k, s) ∈ elemMap → s ≠ []) :
    (∀ k s, (k, s) ∈ (destructorRegistries labelMap elemMap p labelRefs elemRefs).1 →
      p ∉ s ∧ s ≠ [])
    ∧ (∀ k s, (k, s) ∈ (destructorRegistries labelMap elemMap p labelRefs elemRefs).2 →
      p ∉ s ∧ s ≠ []) := by
  constructor
  · intro k s hm
    exact ⟨unregisterRefs_removes p labelRefs labelMap hnd1 hcov1 k s hm,
      unregisterRefs_no_empty p labelRefs labelMap hne1 k s hm⟩
  · intro k s hm
    exact ⟨unregisterRefs_removes p elemRefs elemMap hnd2 hcov2 k s hm,
      unregisterRefs_no_empty p elemRefs elemMap hne2 k s hm⟩

/-- C10 witness: property 1 carries the label reference `Box` and an
element reference to feature 3; after its destructor runs, the label
entry keeps only property 2 and the now-empty feature entry is gone. -/
theorem c10_registry_cleanup_witness :
    ((1 : Nat) ∉ [2] ∧ ([2] : List Nat) ≠ []) ∧ ([] : Registry Obj) = [] :=
  ⟨(c10_registry_cleanup [("Box", [1, 2])] [(⟨3⟩, [1])] 1 ["Box"] [⟨3⟩]
      (by decide) (by decide)
      (by intro k s hm hp; simp at hm; simp [hm.1, hm.2])
      (by intro k s hm hp; simp at hm; simp [hm.1, hm.2])
      (by intro k s hm; simp at hm; simp [hm.2])
      (by intro k s hm; simp at hm; simp [hm.2])).1 "Box" [2] (by decide),
    rfl⟩

/-! ### C7 helper lemmas -/

theorem saveSubEntry_roundtrip (cSub : CStr) (sh : ShadowSub) :
    saveSubEntry (restoreSubEntry (saveSubEntry cSub sh)).1
        (restoreSubEntry (saveSubEntry cSub sh)).2
      = saveSubEntry cSub sh := by
  by_cases h1 : sh.oldName = []
  · by_cases h2 : cSub = []
    · simp [saveSubEntry, restoreSubEntry, h1, h2]
    · by_cases h3 : sh.newName = []
      · simp [saveSubEntry, restoreSubEntry, h1, h2, h3]
      · simp [saveSubEntry, restoreSubEntry, h1, h2, h3]
  · by_cases h2 : cSub = []
    · simp [saveSubEntry, restoreSubEntry, h1, h2]
    · by_cases h4 : sh.oldName = cSub
      · by_cases h3 : sh.newName = []
        · simp [saveSubEntry, restoreSubEntry, h1, h2, h4, h3]
        · simp [saveSubEntry, restoreSubEntry, h1, h2, h4, h3]
      · simp [saveSubEntry, restoreSubEntry, h1, h2, h4]

theorem zipWith_map_same {α β γ δ : Type} (f : α → β → γ) (g1 : δ → α)
    (g2 : δ → β) (l : List δ) :
    List.zipWith f (l.map g1) (l.map g2) = l.map (fun x => f (g1 x) (g2 x)) := by
  induction l with
  | nil => rfl
  | cons a t ih => simp [ih]

theorem entries_roundtrip (l1 : List CStr) (l2 : List ShadowSub) :
    ((List.zipWith saveSubEntry l1 l2).map fun e =>
        saveSubEntry (restoreSubEntry e).1 (restoreSubEntry e).2)
      = List.zipWith saveSubEntry l1 l2 := by
  induction l1 generalizing l2 with
  | nil => simp
  | cons a t ih =>
    cases l2 with
    | nil => simp
    | cons b t2 => simp [saveSubEntry_roundtrip, ih]

/-- C7.  Serialization round-trip for `PropertyLinkSub`: saving, restoring
the saved record, and saving again yields the identical record, hence a
byte-for-byte identical stream for every indentation and attribute
encoder.  Hypotheses: the stored target resolves back to itself (the
claim's "targets are all resolvable") — or the property is empty — and the
reader performs no import name-mapping (plain load). -/
theorem c7_save_restore_save (h : DocHost) (st : LinkSubState)
    (verbose : Bool) (pm : List Nat)
    (hres : ∀ o, st.pcLinkSub = some o →
      h.attached o = true ∧ h.exportName o ≠ [] ∧ h.getObject (h.exportName o) = some o)
    (hempty : st.pcLinkSub = none → st.cSubList = []) :
    linkSubSave h (linkSubRestore h verbose pm (linkSubSave h st)).1
      = linkSubSave h st
    ∧ ∀ (ind ind2 : CStr) (enc : CStr → CStr),
        renderLinkSubRecord ind ind2 enc
            (linkSubSave h (linkSubRestore h verbose pm (linkSubSave h st)).1)
          = renderLinkSubRecord ind ind2 enc (linkSubSave h st) := by
  have main : linkSubSave h (linkSubRestore h verbose pm (linkSubSave h st)).1
      = linkSubSave h st := by
    cases hl : st.pcLinkSub with
    | none =>
      have hsubs := hempty hl
      simp [linkSubSave, linkSubRestore, hl, hsubs]
    | some o =>
      obtain ⟨hat, hne, hobj⟩ := hres o hl
      simp only [linkSubSave, linkSubRestore, hl, hat, if_true, if_pos hne, hne,
        ne_eq, not_false_iff, hobj]
      simp only [LinkSubRecord.mk.injEq, true_and]
      rw [zipWith_map_same, List.map_map]
      exact entries_roundtrip _ _
  exact ⟨main, fun ind ind2 enc => by rw [main]⟩

/-- C7 witness: the round trip on a concrete `Box.Face1` link
property. -/
theorem c7_save_restore_save_witness :
    linkSubSave boxHost
        (linkSubRestore boxHost true [] (linkSubSave boxHost linkSubStateEx)).1
      = linkSubSave boxHost linkSubStateEx :=
  (c7_save_restore_save boxHost linkSubStateEx true []
    (by
      intro o ho
      injection ho with h1
      subst h1
      exact ⟨rfl, by decide, by decide⟩)
    (by intro hco; exact Option.noConfusion hco)).1

/-! ### C8 theorems -/

/-- C8 counterexample.  The claim says every decode of a dangling target
logs a warning.  A non-verbose reader (`reader.isVerbose()` false, as used
for copy/paste restores) decodes the dangling name `Box` to a null value
with no warning at all. -/
theorem c8_silent_restore_counterexample :
    linkRestore emptyHost ⟨0⟩ false ("Box".toList) = (none, [])
    ∧ ([] : List Warn) ≠ [Warn.lostLink] := by
  exact ⟨rfl, by decide⟩

/-- C8 (amended).  Decoding a reference whose stored name does not
resolve never fails (the embedded restores are total): the value is set
to null and the load continues; a human-readable warning is logged when
the reader is verbose (and only then).  This holds for `PropertyLink`
and `PropertyLinkSub` alike. -/
theorem c8_dangling_restore :
    (∀ (h : DocHost) (parent : Obj) (verbose : Bool) (name : CStr),
      h.getObject name = none → name ≠ [] →
      (linkRestore h parent verbose name).1 = none
        ∧ (linkRestore h parent verbose name).2
            = (if verbose then [Warn.lostLink] else []))
    ∧ (∀ (h : DocHost) (verbose : Bool) (pm : List Nat) (r : LinkSubRecord),
      h.getObject r.value = none → r.value ≠ [] →
      (linkSubRestore h verbose pm r).1.pcLinkSub = none
        ∧ (linkSubRestore h verbose pm r).2
            = (if verbose then [Warn.lostLink] else [])) := by
  constructor
  · intro h parent verbose name hn hne
    cases verbose <;> simp [linkRestore, hn, hne]
  · intro h verbose pm r hn hne
    cases verbose <;> simp [linkSubRestore, hn, hne]

/-- C8 witness: a verbose decode of the dangling name `Box` yields a null
value and the lost-link warning. -/
theorem c8_dangling_restore_witness :
    (linkRestore emptyHost ⟨0⟩ true ("Box".toList)).1 = none
    ∧ (linkRestore emptyHost ⟨0⟩ true ("Box".toList)).2
        = (if true then [Warn.lostLink] else []) :=
  c8_dangling_restore.1 emptyHost ⟨0⟩ true ("Box".toList) rfl (by decide)

/-! ### C5 theorems -/

theorem strstrFrom_occurs (hay needle : CStr) (start i : Nat)
    (h : strstrFrom hay needle start = some i) :
    occursAt hay needle i = true := by
  have h2 := List.find?_some h
  rw [Bool.and_eq_true] at h2
  exact h2.2

theorem updLabelLoop_sound (gso : Obj → CStr → Option Obj) (par o : Obj)
    (subname ref newLabel : CStr) :
    ∀ (fuel pos : Nat) (out : CStr),
      updLabelLoop gso par o subname ref newLabel fuel pos = some out →
      ∃ i, occursAt subname ref i = true
        ∧ gso par (subname.take (i + ref.length)) = some o
        ∧ out = subname.take (i + 1) ++ newLabel
            ++ subname.drop (i + ref.length - 1) := by
  intro fuel
  induction fuel with
  | zero => intro pos out h; exact absurd h (by simp [updLabelLoop])
  | succ n ih =>
    intro pos out h
    simp only [updLabelLoop] at h
    split at h
    · exact absurd h (by simp)
    · rename_i i hs
      split at h
      · rename_i hres
        exact ⟨i, strstrFrom_occurs _ _ _ _ hs, hres, (Option.some_inj.1 h).symm⟩
      · exact ih _ _ h

theorem ulsScan_none (f : CStr → Option CStr) :
    ∀ (l : List CStr) (done : List CStr), (∀ sub ∈ l, f sub = none) →
      ulsScan f l done = [] := by
  intro l
  induction l with
  | nil => intro done _; rfl
  | cons s t ih =>
    intro done hf
    simp only [ulsScan]
    rw [hf s (List.mem_cons_self _ _)]
    exact ih _ (fun sub hs => hf sub (List.mem_cons_of_mem _ hs))

/-- C5.  A label rename rewrites a `$label.` occurrence only when the
subname prefix up to and including that occurrence resolves (through the
linked object) to the renamed entity itself; and when no subname of the
property has a resolving occurrence, `CopyOnLabelChange` produces no new
property (null). -/
theorem c5_label_rewrite_requires_resolution :
    (∀ (gso : Obj → CStr → Option Obj) (attached : Obj → Bool)
        (parent : Option Obj) (subname : CStr) (obj : Option Obj)
        (ref newLabel out : CStr),
      updateLabelReference gso attached parent subname obj ref newLabel = some out →
      ∃ (par o : Obj) (i : Nat), parent = some par ∧ obj = some o
        ∧ occursAt subname ref i = true
        ∧ gso par (subname.take (i + ref.length)) = some o
        ∧ out = subname.take (i + 1) ++ newLabel
            ++ subname.drop (i + ref.length - 1))
    ∧ (∀ (gso : Obj → CStr → Option Obj) (attached : Obj → Bool)
        (ownerOk : Bool) (st : LinkSubState) (obj : Option Obj)
        (ref newLabel : CStr),
      (∀ l sub, st.pcLinkSub = some l → sub ∈ st.cSubList →
        updateLabelReference gso attached (some l) sub obj ref newLabel = none) →
      copyOnLabelChangeLinkSub gso attached ownerOk st obj ref newLabel = none) := by
  constructor
  · intro gso attached parent subname obj ref newLabel out h
    cases obj with
    | none => exact absurd h (by simp [updateLabelReference])
    | some o =>
      cases parent with
      | none => exact absurd h (by simp [updateLabelReference])
      | some par =>
        simp only [updateLabelReference] at h
        split at h
        · obtain ⟨i, h1, h2, h3⟩ :=
            updLabelLoop_sound gso par o subname ref newLabel _ _ _ h
          exact ⟨par, o, i, rfl, rfl, h1, h2, h3⟩
        · exact absurd h (by simp)
  · intro gso attached ownerOk st obj ref newLabel hall
    cases ownerOk with
    | false => rfl
    | true =>
      cases hl : st.pcLinkSub with
      | none => simp [copyOnLabelChangeLinkSub, hl]
      | some l =>
        cases hat : attached l with
        | false => simp [copyOnLabelChangeLinkSub, hl, hat]
        | true =>
          have hsubs : updateLinkSubsList
              (fun sub => updateLabelReference gso attached (some l) sub obj ref newLabel)
              st.cSubList = [] :=
            ulsScan_none _ st.cSubList [] (fun sub hs => hall l sub hl hs)
          simp [copyOnLabelChangeLinkSub, hl, hat, hsubs]

/-- C5 witness: renaming label `Box` to `Cube` rewrites the subname
`A.$Box.Face1` to `A.$Cube.Face1` at the occurrence whose prefix
`A.$Box.` resolves to the renamed entity (object 1). -/
theorem c5_label_rewrite_requires_resolution_witness :
    ∃ (par o : Obj) (i : Nat),
      (some (⟨10⟩ : Obj) : Option Obj) = some par
      ∧ (some (⟨1⟩ : Obj) : Option Obj) = some o
      ∧ occursAt ("A.$Box.Face1".toList) ("$Box.".toList) i = true
      ∧ labelGso par (("A.$Box.Face1".toList).take (i + ("$Box.".toList).length))
          = some o
      ∧ ("A.$Cube.Face1".toList : CStr)
          = ("A.$Box.Face1".toList).take (i + 1) ++ ("Cube".toList)
            ++ ("A.$Box.Face1".toList).drop (i + ("$Box.".toList).length - 1) :=
  c5_label_rewrite_requires_resolution.1 labelGso (fun _ => true) (some ⟨10⟩)
    ("A.$Box.Face1".toList) (some ⟨1⟩) ("$Box.".toList) ("Cube".toList)
    ("A.$Cube.Face1".toList) (by decide)

/-! ### C4 theorems -/

theorem replaceAtParent_swap (w : LinkWorld) (owner obj parent : Option Obj)
    (oldObj newObj : Obj) (sub : List String)
    (h : ReplaceAtParent w owner obj parent newObj oldObj sub) :
    ReplaceAtParent w owner obj parent oldObj newObj sub := by
  rcases h with ⟨h1, h2⟩ | ⟨o, done, s, rest, h1, h2, h3, h4, h5⟩
  · exact Or.inl ⟨h1, h2.symm⟩
  · exact Or.inr ⟨o, done, s, rest, h1, h2, h3, h4, h5.symm⟩

theorem replLoopF_sound (w : LinkWorld)
    (auxNext : Option Obj → Option Obj → Option Obj → Obj → Obj →
      List String → Option (Obj × List String))
    (ihAux : ∀ (owner obj parent : Option Obj) (oldObj newObj : Obj)
      (sub : List String) (res : Obj × List String),
      auxNext owner obj parent oldObj newObj sub = some res →
      ReplaceAtParent w owner obj parent oldObj newObj sub) :
    ∀ (rest done : List String) (owner : Option Obj) (root : Obj)
      (parent : Option Obj) (oldObj newObj : Obj) (origSub : List String)
      (prev : Obj) (res : Obj × List String),
      getSubObject w root done = some prev →
      origSub = done ++ rest →
      replLoopF w auxNext owner root parent oldObj newObj origSub done prev rest
        = some res →
      ReplaceAtParent w owner (some root) parent oldObj newObj origSub := by
  intro rest
  induction rest with
  | nil =>
    intro done owner root parent oldObj newObj origSub prev res hprev horig h
    exact absurd h (by simp [replLoopF])
  | cons s rest2 ih =>
    intro done owner root parent oldObj newObj origSub prev res hprev horig h
    simp only [replLoopF] at h
    split at h
    · exact absurd h (by simp)
    · rename_i hne
      split at h
      · exact absurd h (by simp)
      · rename_i sobj hsobj
        split at h
        · rename_i hold
          split at h
          · rename_i hpar
            refine Or.inr ⟨root, done, s, rest2, rfl, horig, hne,
              ⟨prev, hprev, hpar⟩, ?_⟩
            exact Or.inl (by rw [hsobj, hold])
          · exact absurd h (by simp)
        · rename_i hold
          split at h
          · rename_i hnew
            exact replaceAtParent_swap _ _ _ _ _ _ _ (ihAux _ _ _ _ _ _ _ h)
          · rename_i hnew
            split at h
            · exact absurd h (by simp)
            · rename_i hpar
              exact ih (done ++ [s]) owner root parent oldObj newObj origSub
                sobj res hsobj (by rw [horig]; simp) h

theorem tryReplaceLinkAux_sound (w : LinkWorld) :
    ∀ (fuel : Nat) (owner obj parent : Option Obj) (oldObj newObj : Obj)
      (sub : List String) (res : Obj × List String),
      tryReplaceLinkAux w fuel owner obj parent oldObj newObj sub = some res →
      ReplaceAtParent w owner obj parent oldObj newObj sub := by
  intro fuel
  induction fuel with
  | zero =>
    intro owner obj parent oldObj newObj sub res h
    exact absurd h (by simp [tryReplaceLinkAux])
  | succ n ih =>
    intro owner obj parent oldObj newObj sub res h
    simp only [tryReplaceLinkAux] at h
    split at h
    · exact absurd h (by simp)
    · rename_i o
      split at h
      · rename_i hold
        split at h
        · rename_i hpar
          exact Or.inl ⟨hpar, Or.inl (by rw [hold])⟩
        · exact absurd h (by simp)
      · rename_i hold
        split at h
        · rename_i hnew
          exact replaceAtParent_swap _ _ _ _ _ _ _ (ih _ _ _ _ _ _ _ h)
        · rename_i hnew
          split at h
          · exact absurd h (by simp)
          · rename_i hsub
            exact replLoopF_sound w (tryReplaceLinkAux w n) ih sub [] owner o
              parent oldObj newObj sub o res rfl (by simp) h

/-- C4.  A substitution only happens at the parent context: whenever
`tryReplaceLink` returns a transformation, either the direct link was hit
and the owner equals the stated parent, or a path position resolving to
the old (or, by the swap case, the new) object was hit and the chain up
to the preceding segment resolves to the stated parent.  In the spec
scenario, replacing object `oldObj` by `newObj` inside the sub path
`oldObj.Face1` succeeds exactly when the stated parent is the linked
object the path starts from; an unrelated parent yields no
transformation (none). -/
theorem c4_replace_requires_parent_context :
    (∀ (w : LinkWorld) (owner obj parent : Option Obj) (oldObj newObj : Obj)
        (sub : List String) (res : Obj × List String),
      tryReplaceLink w owner obj parent oldObj newObj sub = some res →
      ReplaceAtParent w owner obj parent oldObj newObj sub)
    ∧ tryReplaceLink replWorld (some ⟨9⟩) (some ⟨0⟩) (some ⟨0⟩) ⟨1⟩ ⟨2⟩
        ["oldObj", "Face1"] = some (⟨0⟩, ["newObj", "Face1"])
    ∧ tryReplaceLink replWorld (some ⟨9⟩) (some ⟨0⟩) (some ⟨7⟩) ⟨1⟩ ⟨2⟩
        ["oldObj", "Face1"] = none := by
  refine ⟨?_, by decide, by decide⟩
  intro w owner obj parent oldObj newObj sub res h
  exact tryReplaceLinkAux_sound w 2 owner obj parent oldObj newObj sub res h

/-- C4 witness: the soundness direction applied to the successful spec
scenario — the hit lies at the path position whose preceding context is
the linked object 0, the stated parent. -/
theorem c4_replace_requires_parent_context_witness :
    ReplaceAtParent replWorld (some ⟨9⟩) (some ⟨0⟩) (some ⟨0⟩) ⟨1⟩ ⟨2⟩
      ["oldObj", "Face1"] :=
  c4_replace_requires_parent_context.1 replWorld (some ⟨9⟩) (some ⟨0⟩)
    (some ⟨0⟩) ⟨1⟩ ⟨2⟩ ["oldObj", "Face1"] (⟨0⟩, ["newObj", "Face1"])
    (by decide)

/-! ### C9 helper lemmas -/

theorem detachTrace_count_parentPre (p : Nat) (ls : List XLink) :
    (ls.flatMap detachTrace).count (XEv.parentPre p) = 0 := by
  induction ls with
  | nil => rfl
  | cons l t ih =>
    rw [List.flatMap_cons, List.count_append, ih]
    unfold detachTrace
    split <;> simp [List.count_cons]

theorem detachTrace_count_parentPost (p : Nat) (ls : List XLink) :
    (ls.flatMap detachTrace).count (XEv.parentPost p) = 0 := by
  induction ls with
  | nil => rfl
  | cons l t ih =>
    rw [List.flatMap_cons, List.count_append, ih]
    unfold detachTrace
    split <;> simp [List.count_cons]

theorem groupTrace_count_pre (flagged : List XLink) (k : Option Nat) (p : Nat) :
    (groupTrace flagged k).count (XEv.parentPre p)
      = if k = some p then 1 else 0 := by
  cases k with
  | none =>
    simp [groupTrace, List.count_append, detachTrace_count_parentPre]
  | some q =>
    by_cases hq : q = p
    · subst hq
      simp [groupTrace, List.count_append, detachTrace_count_parentPre,
        List.count_cons]
    · simp [groupTrace, List.count_append, detachTrace_count_parentPre,
        List.count_cons, hq]

theorem groupTrace_count_post (flagged : List XLink) (k : Option Nat) (p : Nat) :
    (groupTrace flagged k).count (XEv.parentPost p)
      = if k = some p then 1 else 0 := by
  cases k with
  | none =>
    simp [groupTrace, List.count_append, detachTrace_count_parentPost]
  | some q =>
    by_cases hq : q = p
    · subst hq
      simp [groupTrace, List.count_append, detachTrace_count_parentPost,
        List.count_cons]
    · simp [groupTrace, List.count_append, detachTrace_count_parentPost,
        List.count_cons, hq]

theorem keys_flatMap_count_zero (flagged : List XLink) (p : Nat)
    (keys : List (Option Nat)) (hnm : some p ∉ keys) :
    ((keys.flatMap (groupTrace flagged)).count (XEv.parentPre p) = 0
      ∧ (keys.flatMap (groupTrace flagged)).count (XEv.parentPost p) = 0) := by
  induction keys with
  | nil => exact ⟨rfl, rfl⟩
  | cons k t ih =>
    have hk : k ≠ some p := fun hx => hnm (hx ▸ List.mem_cons_self _ _)
    have ht : some p ∉ t := fun hx => hnm (List.mem_cons_of_mem _ hx)
    obtain ⟨ih1, ih2⟩ := ih ht
    constructor
    · rw [List.flatMap_cons, List.count_append, ih1, groupTrace_count_pre,
        if_neg hk]
    · rw [List.flatMap_cons, List.count_append, ih2, groupTrace_count_post,
        if_neg hk]

theorem keys_flatMap_count_one (flagged : List XLink) (p : Nat)
    (keys : List (Option Nat)) (hnd : keys.Nodup) (hmem : some p ∈ keys) :
    ((keys.flatMap (groupTrace flagged)).count (XEv.parentPre p) = 1
      ∧ (keys.flatMap (groupTrace flagged)).count (XEv.parentPost p) = 1) := by
  induction keys with
  | nil => exact absurd hmem (List.not_mem_nil _)
  | cons k t ih =>
    obtain ⟨hk, hndt⟩ := List.nodup_cons.1 hnd
    by_cases hkp : k = some p
    · subst hkp
      obtain ⟨hz1, hz2⟩ := keys_flatMap_count_zero flagged p t hk
      constructor
      · rw [List.flatMap_cons, List.count_append, hz1, groupTrace_count_pre,
          if_pos rfl]
      · rw [List.flatMap_cons, List.count_append, hz2, groupTrace_count_post,
          if_pos rfl]
    · have hmt : some p ∈ t := by
        rcases List.mem_cons.1 hmem with h | h
        · exact absurd h.symm hkp
        · exact h
      obtain ⟨ih1, ih2⟩ := ih hndt hmt
      constructor
      · rw [List.flatMap_cons, List.count_append, ih1, groupTrace_count_pre,
          if_neg hkp]
      · rw [List.flatMap_cons, List.count_append, ih2, groupTrace_count_post,
          if_neg hkp]

theorem detachX_flag (l : XLink) (hinfo : l.hasDocInfo = true) :
    detachX { l with flagDetached := true }
      = { l with flagDetached := true, pcLink := none } := by
  obtain ⟨id0, od, nm, pc, hd, fd, pp⟩ := l
  cases pc with
  | some o => simp_all [detachX]
  | none => simp_all [detachX]

theorem slotDeleteDocument_eq (doc : Nat) (st : DocInfoState)
    (h1 : (st.links.filter (fun x => x.ownerDoc ≠ doc)).isEmpty = false)
    (h2 : st.pcDoc = some doc) :
    slotDeleteDocument doc st
      = ({ st with
            links := ((st.links.filter (fun x => x.ownerDoc ≠ doc)).map
                (fun l => { l with flagDetached := true })).map detachX
            pcDoc := none },
          (st.links.filter (fun x => x.ownerDoc = doc)).map unlinkX,
          (groupKeys ((st.links.filter (fun x => x.ownerDoc ≠ doc)).map
              (fun l => { l with flagDetached := true }))).flatMap
            (groupTrace ((st.links.filter (fun x => x.ownerDoc ≠ doc)).map
                (fun l => { l with flagDetached := true })))) := by
  unfold slotDeleteDocument
  rw [if_neg (fun hc => by rw [hc] at h1; exact Bool.noConfusion h1),
    if_neg (by simp [h2])]

/-- C9.  Deleting the attached document detaches every external reference
owned elsewhere: the link reappears in the descriptor with the detached
flag set and the live pointer cleared but the stored target name (and the
descriptor's file path) unchanged, and the notification trace holds
exactly one pre/post hook pair for the link's aggregating parent
property. -/
theorem c9_detach_on_document_delete (st : DocInfoState) (doc : Nat) (l : XLink)
    (hdoc : st.pcDoc = some doc) (hmem : l ∈ st.links)
    (howner : l.ownerDoc ≠ doc) (hinfo : l.hasDocInfo = true) :
    ({ l with flagDetached := true, pcLink := none }
        ∈ (slotDeleteDocument doc st).1.links)
    ∧ (slotDeleteDocument doc st).1.myPath = st.myPath
    ∧ (∀ p, l.parentProp = some p →
        ((slotDeleteDocument doc st).2.2.count (XEv.parentPre p) = 1
          ∧ (slotDeleteDocument doc st).2.2.count (XEv.parentPost p) = 1)) := by
  have hrest : l ∈ st.links.filter (fun x => x.ownerDoc ≠ doc) :=
    List.mem_filter.2 ⟨hmem, by simpa using howner⟩
  have hrne : (st.links.filter (fun x => x.ownerDoc ≠ doc)).isEmpty = false := by
    rcases hx : (st.links.filter (fun x => x.ownerDoc ≠ doc)) with _ | ⟨a, t⟩
    · rw [hx] at hrest
      exact absurd hrest (List.not_mem_nil _)
    · rw [hx]
      rfl
  rw [slotDeleteDocument_eq doc st hrne hdoc]
  refine ⟨?_, rfl, ?_⟩
  · rw [← detachX_flag l hinfo]
    exact List.mem_map.2 ⟨{ l with flagDetached := true },
      List.mem_map.2 ⟨l, hrest, rfl⟩, rfl⟩
  · intro p hp
    apply keys_flatMap_count_one
    · exact List.nodup_dedup _
    · exact List.mem_dedup.2 (List.mem_map.2 ⟨{ l with flagDetached := true },
        List.mem_map.2 ⟨l, hrest, rfl⟩, hp⟩)

/-- C9 witness: deleting document 7 detaches the concrete external
reference `xlinkEx`, keeping its stored name, and fires one hook pair on
its aggregating parent property 4. -/
theorem c9_detach_on_document_delete_witness :
    ({ xlinkEx with flagDetached := true, pcLink := none }
        ∈ (slotDeleteDocument 7 docInfoEx).1.links)
    ∧ (slotDeleteDocument 7 docInfoEx).1.myPath = docInfoEx.myPath
    ∧ ((slotDeleteDocument 7 docInfoEx).2.2.count (XEv.parentPre 4) = 1
        ∧ (slotDeleteDocument 7 docInfoEx).2.2.count (XEv.parentPost 4) = 1) := by
  have h := c9_detach_on_document_delete docInfoEx 7 xlinkEx rfl
    (List.mem_cons_self _ _) (by decide) rfl
  exact ⟨h.1, h.2.1, h.2.2 4 rfl⟩

/-! ### C6 helper lemmas: the leaf shapes of a forward run -/

theorem updRef_unattached (w : GeoWorld) (o : Obj) (st : CStr × ShadowSub)
    (hatt : w.attached o = false) :
    updRef w o st = (false, st) := by
  simp [updRef, updateElementRef, hatt]

theorem updRef_fail (w : GeoWorld) (o : Obj) (sub : CStr) (sh : ShadowSub)
    (hatt : w.attached o = true)
    (hfail : (w.resolve o (refQuery sub sh)).ret = none
      ∨ (w.resolve o (refQuery sub sh)).geo = none
      ∨ (w.resolve o (refQuery sub sh)).element = []) :
    updRef w o (sub, sh)
      = (false, (sub,
          if (w.resolve o (refQuery sub sh)).elem.oldName ≠ [] then
            { sh with oldName := (w.resolve o (refQuery sub sh)).elem.oldName }
          else sh)) := by
  simp [updRef, updateElementRef, hatt, hfail]

theorem updRef_emptyNew (w : GeoWorld) (o : Obj) (sub : CStr) (sh : ShadowSub)
    (hatt : w.attached o = true)
    (hfail : ¬((w.resolve o (refQuery sub sh)).ret = none
      ∨ (w.resolve o (refQuery sub sh)).geo = none
      ∨ (w.resolve o (refQuery sub sh)).element = []))
    (hnew : (w.resolve o (refQuery sub sh)).elem.newName = []) :
    updRef w o (sub, sh)
      = (false, (sub,
          { sh with oldName := (w.resolve o (refQuery sub sh)).elem.oldName })) := by
  simp [updRef, updateElementRef, hatt, hfail, hnew]

theorem updRef_same (w : GeoWorld) (o : Obj) (sub : CStr) (sh : ShadowSub)
    (hatt : w.attached o = true)
    (hfail : ¬((w.resolve o (refQuery sub sh)).ret = none
      ∨ (w.resolve o (refQuery sub sh)).geo = none
      ∨ (w.resolve o (refQuery sub sh)).element = []))
    (hnew : (w.resolve o (refQuery sub sh)).elem.newName ≠ [])
    (hsame : sh = (w.resolve o (refQuery sub sh)).elem) :
    updRef w o (sub, sh) = (false, (sub, sh)) := by
  have hnew2 : sh.newName ≠ [] := by rw [hsame]; exact hnew
  simp [updRef, updateElementRef, hatt, hfail, ← hsame, hnew2]

set_option maxRecDepth 4000 in
theorem updRef_missing (w : GeoWorld) (o : Obj) (sub : CStr) (sh : ShadowSub)
    (hatt : w.attached o = true)
    (hfail : ¬((w.resolve o (refQuery sub sh)).ret = none
      ∨ (w.resolve o (refQuery sub sh)).geo = none
      ∨ (w.resolve o (refQuery sub sh)).element = []))
    (hnew : (w.resolve o (refQuery sub sh)).elem.newName ≠ [])
    (hsame : ¬(sh = (w.resolve o (refQuery sub sh)).elem))
    (hmiss : w.hasMissingElement (w.resolve o (refQuery sub sh)).elem.oldName
      = true) :
    updRef w o (sub, sh)
      = (true,
          (if sub ≠ sh.newName then (w.resolve o (refQuery sub sh)).elem.oldName
           else sub,
          { sh with oldName := (w.resolve o (refQuery sub sh)).elem.oldName })) := by
  have hgeo : ¬((none : Option Obj) = (w.resolve o (refQuery sub sh)).geo) := by
    intro hc
    exact hfail (Or.inr (Or.inl hc.symm))
  simp [updRef, updateElementRef, hatt, hfail, hnew, hsame, hmiss, hgeo]

set_option maxRecDepth 4000 in
theorem updRef_normal (w : GeoWorld) (o : Obj) (sub : CStr) (sh : ShadowSub)
    (hatt : w.attached o = true)
    (hfail : ¬((w.resolve o (refQuery sub sh)).ret = none
      ∨ (w.resolve o (refQuery sub sh)).geo = none
      ∨ (w.resolve o (refQuery sub sh)).element = []))
    (hnew : (w.resolve o (refQuery sub sh)).elem.newName ≠ [])
    (hsame : ¬(sh = (w.resolve o (refQuery sub sh)).elem))
    (hmiss : w.hasMissingElement (w.resolve o (refQuery sub sh)).elem.oldName
      = false) :
    updRef w o (sub, sh)
      = (true,
          (positionalPatch
            (mappedChoice w sub (w.resolve o (refQuery sub sh)).elem)
            (w.resolve o (refQuery sub sh)).elem,
          (w.resolve o (refQuery sub sh)).elem)) := by
  have hgeo : ¬((none : Option Obj) = (w.resolve o (refQuery sub sh)).geo) := by
    intro hc
    exact hfail (Or.inr (Or.inl hc.symm))
  simp [updRef, updateElementRef, hatt, hfail, hnew, hsame, hmiss, hgeo]

theorem refQuery_newName (sub : CStr) (sh : ShadowSub) (h : sh.newName ≠ []) :
    refQuery sub sh = sh.newName := by
  simp [refQuery, h]

theorem refQuery_oldName (sub : CStr) (sh : ShadowSub) (h1 : sh.newName = [])
    (h2 : sh.oldName ≠ []) : refQuery sub sh = sh.oldName := by
  simp [refQuery, h1, h2]

theorem resolve_refQuery_oldUpdate (w : GeoWorld) (o : Obj) (sub : CStr)
    (sh : ShadowSub) (x : CStr)
    (hstO : ∀ q, (w.resolve o q).elem.oldName ≠ [] →
      w.resolve o ((w.resolve o q).elem.oldName) = w.resolve o q)
    (hx : x = (w.resolve o (refQuery sub sh)).elem.oldName) (hro : x ≠ []) :
    ∀ sub2, w.resolve o (refQuery sub2 { sh with oldName := x })
      = w.resolve o (refQuery sub sh) := by
  intro sub2
  by_cases hn : sh.newName = []
  · rw [refQuery_oldName sub2 ⟨sh.newName, x⟩ hn hro]
    show w.resolve o x = w.resolve o (refQuery sub sh)
    rw [hx]
    exact hstO _ (hx ▸ hro)
  · rw [refQuery_newName sub2 ⟨sh.newName, x⟩ hn]
    show w.resolve o sh.newName = w.resolve o (refQuery sub sh)
    rw [refQuery_newName sub sh hn]

/-- C6 counterexample.  The claim says a second forward run reports
unchanged (returns false).  In `missingGeoWorld` — a world satisfying
`StableResolve`, so there is no intervening topology change — the
missing-element path mutates nothing on the second run yet returns true
again (lines 515-519 return true whenever the element is missing). -/
theorem c6_second_run_reports_touched :
    updRef missingGeoWorld ⟨1⟩ ("e0".toList, { newName := [], oldName := [] })
      = (true, ("m0".toList, { newName := [], oldName := "m0".toList }))
    ∧ updRef missingGeoWorld ⟨1⟩
        ("m0".toList, { newName := [], oldName := "m0".toList })
      = (true, ("m0".toList, { newName := [], oldName := "m0".toList }))
    ∧ true ≠ false := by
  exact ⟨by decide, by decide, by decide⟩

/-- `missingGeoWorld` satisfies the no-topology-change constraints. -/
theorem missingGeoWorld_stable : StableResolve missingGeoWorld ⟨1⟩ := by
  refine ⟨?_, ?_, ?_⟩
  · intro q
    simp only [missingGeoWorld]
    by_cases hq : q = ("e0".toList) ∨ q = ("m0".toList) ∨ q = ("n1".toList)
    · rw [if_pos hq]
      intro _
      decide
    · rw [if_neg hq]
      intro hc
      exact absurd rfl hc
  · intro q
    simp only [missingGeoWorld]
    by_cases hq : q = ("e0".toList) ∨ q = ("m0".toList) ∨ q = ("n1".toList)
    · rw [if_pos hq]
      intro _
      decide
    · rw [if_neg hq]
      intro hc
      exact absurd rfl hc
  · intro q
    simp only [missingGeoWorld]
    by_cases hq : q = ("e0".toList) ∨ q = ("m0".toList) ∨ q = ("n1".toList)
    · rw [if_pos hq]
      intro _
      decide
    · rw [if_neg hq]
      intro hc
      exact absurd rfl hc

/-- C6 (amended).  With no intervening topology change (a stable
resolver), a second forward element-reference update never mutates the
sub value or the shadow pair; it reports unchanged (false) except when
the resolved element carries the missing-element marker, in which case
every run keeps reporting touched (true). -/
theorem c6_forward_rerun_stable (w : GeoWorld) (o : Obj) (sub : CStr)
    (sh : ShadowSub) (hst : StableResolve w o) :
    ((updRef w o (updRef w o (sub, sh)).2).2 = (updRef w o (sub, sh)).2)
    ∧ ((updRef w o (updRef w o (sub, sh)).2).1 = true →
        w.hasMissingElement
          ((w.resolve o
            (refQuery (updRef w o (sub, sh)).2.1
              (updRef w o (sub, sh)).2.2)).elem.oldName) = true) := by
  obtain ⟨hstN, hstO, hstR⟩ := hst
  cases hatt : w.attached o with
  | false =>
    have h1 := updRef_unattached w o (sub, sh) hatt
    have hfin : updRef w o (updRef w o (sub, sh)).2 = (false, (sub, sh)) := by
      rw [h1]; exact h1
    rw [hfin, h1]
    exact ⟨rfl, fun hc => Bool.noConfusion hc⟩
  | true =>
    by_cases hfail : (w.resolve o (refQuery sub sh)).ret = none
        ∨ (w.resolve o (refQuery sub sh)).geo = none
        ∨ (w.resolve o (refQuery sub sh)).element = []
    · by_cases hold : (w.resolve o (refQuery sub sh)).elem.oldName = []
      · have h1 : updRef w o (sub, sh) = (false, (sub, sh)) := by
          rw [updRef_fail w o sub sh hatt hfail, if_neg (fun hc => hc hold)]
        have hfin : updRef w o (updRef w o (sub, sh)).2 = (false, (sub, sh)) := by
          rw [h1]; exact h1
        rw [hfin, h1]
        exact ⟨rfl, fun hc => Bool.noConfusion hc⟩
      · have h1 : updRef w o (sub, sh)
            = (false, (sub,
              { sh with
                oldName := (w.resolve o (refQuery sub sh)).elem.oldName })) := by
          rw [updRef_fail w o sub sh hatt hfail, if_pos hold]
        have hq := resolve_refQuery_oldUpdate w o sub sh
          ((w.resolve o (refQuery sub sh)).elem.oldName) hstO rfl hold
        have h2 : updRef w o (sub,
            { sh with
              oldName := (w.resolve o (refQuery sub sh)).elem.oldName })
            = (false, (sub,
              { sh with
                oldName := (w.resolve o (refQuery sub sh)).elem.oldName })) := by
          rw [updRef_fail w o sub _ hatt (by rw [hq sub]; exact hfail)]
          rw [hq sub]
          rw [if_pos hold]
        have hfin : updRef w o (updRef w o (sub, sh)).2
            = (false, (sub,
              { sh with
                oldName := (w.resolve o (refQuery sub sh)).elem.oldName })) := by
          rw [h1]; exact h2
        rw [hfin, h1]
        exact ⟨rfl, fun hc => Bool.noConfusion hc⟩
    · by_cases hnew : (w.resolve o (refQuery sub sh)).elem.newName = []
      · have hro : (w.resolve o (refQuery sub sh)).elem.oldName ≠ [] :=
          hstR _ (fun hc => hfail (Or.inl hc))
        have h1 := updRef_emptyNew w o sub sh hatt hfail hnew
        have hq := resolve_refQuery_oldUpdate w o sub sh
          ((w.resolve o (refQuery sub sh)).elem.oldName) hstO rfl hro
        have h2 : updRef w o (sub,
            { sh with
              oldName := (w.resolve o (refQuery sub sh)).elem.oldName })
            = (false, (sub,
              { sh with
                oldName := (w.resolve o (refQuery sub sh)).elem.oldName })) := by
          rw [updRef_emptyNew w o sub _ hatt (by rw [hq sub]; exact hfail)
            (by rw [hq sub]; exact hnew)]
          rw [hq sub]
        have hfin : updRef w o (updRef w o (sub, sh)).2
            = (false, (sub,
              { sh with
                oldName := (w.resolve o (refQuery sub sh)).elem.oldName })) := by
          rw [h1]; exact h2
        rw [hfin, h1]
        exact ⟨rfl, fun hc => Bool.noConfusion hc⟩
      · by_cases hsame : sh = (w.resolve o (refQuery sub sh)).elem
        · have h1 := updRef_same w o sub sh hatt hfail hnew hsame
          have hfin : updRef w o (updRef w o (sub, sh)).2
              = (false, (sub, sh)) := by
            rw [h1]; exact h1
          rw [hfin, h1]
          exact ⟨rfl, fun hc => Bool.noConfusion hc⟩
        · have hro : (w.resolve o (refQuery sub sh)).elem.oldName ≠ [] :=
            hstR _ (fun hc => hfail (Or.inl hc))
          have hq := resolve_refQuery_oldUpdate w o sub sh
            ((w.resolve o (refQuery sub sh)).elem.oldName) hstO rfl hro
          cases hmq : w.hasMissingElement (w.resolve o (refQuery sub sh)).elem.oldName with
          | false =>
            have h1 := updRef_normal w o sub sh hatt hfail hnew hsame hmq
            have hqE : w.resolve o
                (refQuery
                  (positionalPatch
                    (mappedChoice w sub (w.resolve o (refQuery sub sh)).elem)
                    (w.resolve o (refQuery sub sh)).elem)
                  (w.resolve o (refQuery sub sh)).elem)
                = w.resolve o (refQuery sub sh) := by
              rw [refQuery_newName _ _ hnew]
              exact hstN _ hnew
            have h2 := updRef_same w o
              (positionalPatch
                (mappedChoice w sub (w.resolve o (refQuery sub sh)).elem)
                (w.resolve o (refQuery sub sh)).elem)
              ((w.resolve o (refQuery sub sh)).elem) hatt
              (by rw [hqE]; exact hfail) (by rw [hqE]; exact hnew)
              (by rw [hqE])
            have hfin : updRef w o (updRef w o (sub, sh)).2
                = (false,
                  (positionalPatch
                    (mappedChoice w sub (w.resolve o (refQuery sub sh)).elem)
                    (w.resolve o (refQuery sub sh)).elem,
                  (w.resolve o (refQuery sub sh)).elem)) := by
              rw [h1]; exact h2
            rw [hfin, h1]
            exact ⟨rfl, fun hc => Bool.noConfusion hc⟩
          | true =>
            have h1 := updRef_missing w o sub sh hatt hfail hnew hsame hmq
            by_cases hsame2 : ({ sh with
                oldName := (w.resolve o (refQuery sub sh)).elem.oldName }
                  : ShadowSub)
                = (w.resolve o (refQuery sub sh)).elem
            · have h2 := updRef_same w o
                (if sub ≠ sh.newName then
                  (w.resolve o (refQuery sub sh)).elem.oldName
                else sub)
                ({ sh with
                  oldName := (w.resolve o (refQuery sub sh)).elem.oldName })
                hatt (by rw [hq _]; exact hfail) (by rw [hq _]; exact hnew)
                (by rw [hq _]; exact hsame2)
              have hfin : updRef w o (updRef w o (sub, sh)).2
                  = (false,
                    (if sub ≠ sh.newName then
                      (w.resolve o (refQuery sub sh)).elem.oldName
                    else sub,
                    { sh with
                      oldName := (w.resolve o (refQuery sub sh)).elem.oldName })) := by
                rw [h1]; exact h2
              rw [hfin, h1]
              exact ⟨rfl, fun hc => Bool.noConfusion hc⟩
            · have h2 := updRef_missing w o
                (if sub ≠ sh.newName then
                  (w.resolve o (refQuery sub sh)).elem.oldName
                else sub)
                ({ sh with
                  oldName := (w.resolve o (refQuery sub sh)).elem.oldName })
                hatt (by rw [hq _]; exact hfail) (by rw [hq _]; exact hnew)
                (by rw [hq _]; exact hsame2) (by rw [hq _]; exact hmq)
              rw [hq _] at h2
              have hsubfix :
                  (if (if sub ≠ sh.newName then
                        (w.resolve o (refQuery sub sh)).elem.oldName
                      else sub)
                      ≠ ({ sh with
                        oldName :=
                          (w.resolve o (refQuery sub sh)).elem.oldName }
                          : ShadowSub).newName then
                    (w.resolve o (refQuery sub sh)).elem.oldName
                  else
                    (if sub ≠ sh.newName then
                      (w.resolve o (refQuery sub sh)).elem.oldName
                    else sub))
                  = (if sub ≠ sh.newName then
                      (w.resolve o (refQuery sub sh)).elem.oldName
                    else sub) := by
                by_cases hss : sub ≠ sh.newName <;> simp [hss]
              rw [hsubfix] at h2
              have hfin : updRef w o (updRef w o (sub, sh)).2
                  = (true,
                    (if sub ≠ sh.newName then
                      (w.resolve o (refQuery sub sh)).elem.oldName
                    else sub,
                    { sh with
                      oldName := (w.resolve o (refQuery sub sh)).elem.oldName })) := by
                rw [h1]; exact h2
              rw [hfin, h1]
              refine ⟨rfl, fun _ => ?_⟩
              show w.hasMissingElement
                ((w.resolve o
                  (refQuery
                    (if sub ≠ sh.newName then
                      (w.resolve o (refQuery sub sh)).elem.oldName
                    else sub)
                    { sh with
                      oldName :=
                        (w.resolve o (refQuery sub sh)).elem.oldName })).elem.oldName)
                = true
              rw [hq _]
              exact hmq

/-- `stableGeoWorld` satisfies the no-topology-change constraints. -/
theorem stableGeoWorld_stable : StableResolve stableGeoWorld ⟨1⟩ :=
  ⟨fun _ _ => rfl, fun _ _ => rfl, fun _ _ => by
    show ("p".toList : CStr) ≠ []
    decide⟩

/-- C6 witness: the idempotence theorem on a concrete healthy resolution
(`stableGeoWorld`, starting from a bare positional sub `s`). -/
theorem c6_forward_rerun_stable_witness :
    ((updRef stableGeoWorld ⟨1⟩
        (updRef stableGeoWorld ⟨1⟩
          ("s".toList, { newName := [], oldName := [] })).2).2
      = (updRef stableGeoWorld ⟨1⟩
          ("s".toList, { newName := [], oldName := [] })).2)
    ∧ ((updRef stableGeoWorld ⟨1⟩
        (updRef stableGeoWorld ⟨1⟩
          ("s".toList, { newName := [], oldName := [] })).2).1 = true →
        stableGeoWorld.hasMissingElement
          ((stableGeoWorld.resolve ⟨1⟩
            (refQuery
              (updRef stableGeoWorld ⟨1⟩
                ("s".toList, { newName := [], oldName := [] })).2.1
              (updRef stableGeoWorld ⟨1⟩
                ("s".toList, { newName := [], oldName := [] })).2.2)).elem.oldName)
          = true) :=
  c6_forward_rerun_stable stableGeoWorld ⟨1⟩ ("s".toList)
    { newName := [], oldName := [] } stableGeoWorld_stable

end PropertyLinks

